import Mathlib

/-!
Verification of the tool-call extraction and dispatch engine of a
conversational task assistant (FastAPI backend, `app/agents/chat_agent.py`,
`app/mcp/task_tools.py`, `app/mcp/identity_tool.py`, `app/api/chat.py`).

Text is modelled as `List Char`.  Python string primitives (`find`,
`replace`, `strip`, slicing, `split`) are embedded directly.  The standard
library `json.loads` is embedded as a small JSON parser over a concrete
JSON value type (integers only for numbers; escape handling covers the
usual short escapes and `\uXXXX`).  Database-backed task storage is
embedded as explicit state passing over a list of task rows.
-/

set_option maxRecDepth 20000

namespace TodoAgent

/-! ## Characters and Python string primitives -/

def openBrace : Char := '\x7b'
def closeBrace : Char := '\x7d'
def btick : Char := '\x60'
def squote : Char := '\x27'
def dquote : Char := '\x22'
def bslash : Char := '\x5c'
def nlChar : Char := '\n'

/-- The characters Python's `str.strip()` removes (ASCII whitespace). -/
def isPyWs (c : Char) : Bool :=
  c = ' ' || c = '\t' || c = '\n' || c = '\r' || c = '\x0b' || c = '\x0c'

def toL (s : String) : List Char := s.data

/-- Python `str.strip()` (trailing part). -/
def pyStripEnd (l : List Char) : List Char :=
  ((l.reverse).dropWhile isPyWs).reverse

/-- Python `str.strip()`: remove leading and trailing whitespace. -/
def pyStrip (l : List Char) : List Char :=
  pyStripEnd (l.dropWhile isPyWs)

/-- Python `str.strip(c)` for a single character `c`. -/
def pyStripChar (c : Char) (l : List Char) : List Char :=
  (((l.dropWhile (fun a => a = c)).reverse).dropWhile (fun a => a = c)).reverse

/-- Does `pat` occur as a prefix of `l`? -/
def startsWithL : List Char → List Char → Bool
  | [], _ => true
  | _ :: _, [] => false
  | p :: ps, c :: cs => p = c && startsWithL ps cs

/-- Helper for `findStr`: scan the suffix, reporting the absolute index. -/
def findStrAux (pat : List Char) : List Char → Nat → Option Nat
  | [], i => if pat = [] then some i else none
  | c :: cs, i =>
    if startsWithL pat (c :: cs) then some i else findStrAux pat cs (i + 1)

/-- Python `text.find(pat, start)`; `none` plays the role of `-1`. -/
def findStr (text pat : List Char) (start : Nat) : Option Nat :=
  findStrAux pat (text.drop start) start

/-- Does `pat` occur anywhere in `text` (Python `pat in text`)? -/
def containsStr (text pat : List Char) : Bool :=
  (findStr text pat 0).isSome

/-- Python slice `text[a:b]`. -/
def pySlice (text : List Char) (a b : Nat) : List Char :=
  (text.drop a).take (b - a)

/-- Helper for `replaceAll`; fuel bounds the number of steps (one character
or one pattern occurrence is consumed per step, so `text.length + 1`
always suffices). -/
def replaceAllAux (pat : List Char) : Nat → List Char → List Char
  | _, [] => []
  | 0, l => l
  | fuel + 1, c :: cs =>
    if startsWithL pat (c :: cs) then
      replaceAllAux pat fuel ((c :: cs).drop pat.length)
    else
      c :: replaceAllAux pat fuel cs

/-- Python `text.replace(pat, "")` for nonempty `pat`: remove every
(left-to-right, non-overlapping) occurrence. -/
def replaceAll (text pat : List Char) : List Char :=
  if pat = [] then text else replaceAllAux pat (text.length + 1) text

/-- Python `text.split(sep, 1)[1]` when `sep` occurs in `text`. -/
def afterFirst (text sep : List Char) : List Char :=
  match findStr text sep 0 with
  | some i => text.drop (i + sep.length)
  | none => text

/-- ASCII lower-casing, as Python `str.lower()` acts on ASCII text. -/
def pyLowerChar (c : Char) : Char :=
  if 65 ≤ c.toNat ∧ c.toNat ≤ 90 then Char.ofNat (c.toNat + 32) else c

def pyLower (l : List Char) : List Char := l.map pyLowerChar

/-! ## JSON values and a model of `json.loads`

`Json`, `JsonList` and `JsonFields` are mutual so that structural
recursion and decidable equality are available.  Numbers are restricted
to integers: the claims under verification never involve float literals,
which are outside the modelled fragment. -/

mutual
inductive Json where
  | null : Json
  | bool (b : Bool) : Json
  | num (n : Int) : Json
  | str (s : String) : Json
  | arr (xs : JsonList) : Json
  | obj (fs : JsonFields) : Json
  deriving DecidableEq

inductive JsonList where
  | nil : JsonList
  | cons (hd : Json) (tl : JsonList) : JsonList
  deriving DecidableEq

inductive JsonFields where
  | nil : JsonFields
  | cons (k : String) (v : Json) (tl : JsonFields) : JsonFields
  deriving DecidableEq
end

/-- Key lookup in a decoded JSON object (Python `d[k]` / `k in d`). -/
def JsonFields.lookup : JsonFields → String → Option Json
  | .nil, _ => none
  | .cons k0 v tl, k => if k0 = k then some v else tl.lookup k

/-- Python `k in d` for a decoded JSON object. -/
def JsonFields.hasKey (fs : JsonFields) (k : String) : Bool :=
  (fs.lookup k).isSome

/-- Python `d.get(k, default)`. -/
def JsonFields.getD (fs : JsonFields) (k : String) (default : Json) : Json :=
  match fs.lookup k with
  | some v => v
  | none => default

/-- Python `d.get(k)` with JSON `null` collapsing to `None`, as both
surface as `None` to the `is not None` checks in `update_task`. -/
def JsonFields.getOpt (fs : JsonFields) (k : String) : Option Json :=
  match fs.lookup k with
  | some Json.null => none
  | some v => some v
  | none => none

/-- Insert-or-update preserving insertion order (Python dict semantics,
used when the parser meets a duplicate key: the last value wins). -/
def JsonFields.setKey : JsonFields → String → Json → JsonFields
  | .nil, k, v => .cons k v .nil
  | .cons k0 v0 tl, k, v =>
    if k0 = k then .cons k0 v tl else .cons k0 v0 (tl.setKey k v)

def JsonList.toList : JsonList → List Json
  | .nil => []
  | .cons h t => h :: t.toList

def JsonList.ofList : List Json → JsonList
  | [] => .nil
  | h :: t => .cons h (JsonList.ofList t)

/-- JSON structural whitespace (RFC 8259, as accepted by `json.loads`). -/
def isJsonWs (c : Char) : Bool :=
  c = ' ' || c = '\t' || c = '\n' || c = '\r'

def skipJsonWs (l : List Char) : List Char := l.dropWhile isJsonWs

def hexVal (c : Char) : Option Nat :=
  if '0' ≤ c ∧ c ≤ '9' then some (c.toNat - 48)
  else if 'a' ≤ c ∧ c ≤ 'f' then some (c.toNat - 87)
  else if 'A' ≤ c ∧ c ≤ 'F' then some (c.toNat - 70)
  else none

/-- Body of a JSON string literal after the opening quote: returns the
decoded content and the remainder after the closing quote. -/
def parseStringBody : List Char → Option (List Char × List Char)
  | [] => none
  | c :: rest =>
    if c = dquote then some ([], rest)
    else if c = bslash then
      match rest with
      | [] => none
      | e :: rest2 =>
        if e = 'u' then
          match rest2 with
          | h1 :: h2 :: h3 :: h4 :: rest6 =>
            match hexVal h1, hexVal h2, hexVal h3, hexVal h4 with
            | some a, some b, some c3, some d =>
              match parseStringBody rest6 with
              | some (s, r) =>
                some (Char.ofNat (((a * 16 + b) * 16 + c3) * 16 + d) :: s, r)
              | none => none
            | _, _, _, _ => none
          | _ => none
        else
          match
            (if e = dquote then some dquote
             else if e = bslash then some bslash
             else if e = '/' then some '/'
             else if e = 'b' then some '\x08'
             else if e = 'f' then some '\x0c'
             else if e = 'n' then some '\n'
             else if e = 'r' then some '\r'
             else if e = 't' then some '\t'
             else none) with
          | some d =>
            match parseStringBody rest2 with
            | some (s, r) => some (d :: s, r)
            | none => none
          | none => none
    else
      match parseStringBody rest with
      | some (s, r2) => some (c :: s, r2)
      | none => none

def isDigitC (c : Char) : Bool := '0' ≤ c && c ≤ '9'

def digitsToNat (l : List Char) : Nat :=
  l.foldl (fun acc c => acc * 10 + (c.toNat - 48)) 0

/-- JSON integer literal: optional minus, digits, no leading zero, and no
fraction/exponent part (floats are outside the modelled fragment). -/
def parseIntLit (l : List Char) : Option (Int × List Char) :=
  let core : List Char → Option (Int × List Char) := fun cs =>
    let ds := cs.takeWhile isDigitC
    let rest := cs.dropWhile isDigitC
    match ds with
    | [] => none
    | d0 :: dtl =>
      if d0 = '0' ∧ dtl ≠ [] then none
      else
        match rest with
        | r0 :: _ =>
          if r0 = '.' ∨ r0 = 'e' ∨ r0 = 'E' then none
          else some ((digitsToNat ds : Int), rest)
        | [] => some ((digitsToNat ds : Int), rest)
  match l with
  | c :: cs =>
    if c = '-' then
      match core cs with
      | some (n, r) => some (-n, r)
      | none => none
    else core l
  | [] => none

/-- Append at the end of a `JsonList` (array elements are read
left-to-right). -/
def JsonList.append : JsonList → Json → JsonList
  | .nil, v => .cons v .nil
  | .cons h t, v => .cons h (t.append v)

mutual
/-- One JSON value (model of the recursive descent inside `json.loads`);
`fuel` bounds nesting depth, `input.length + 1` always suffices. -/
def parseVal : Nat → List Char → Option (Json × List Char)
  | 0, _ => none
  | fuel + 1, l =>
    match skipJsonWs l with
    | [] => none
    | c :: cs =>
      if c = openBrace then
        parseObjFields fuel cs JsonFields.nil true
      else if c = '[' then
        parseArrElems fuel cs JsonList.nil true
      else if c = dquote then
        match parseStringBody cs with
        | some (s, r) => some (Json.str (String.mk s), r)
        | none => none
      else if startsWithL (toL ("true")) (c :: cs) then
        some (Json.bool true, (c :: cs).drop 4)
      else if startsWithL (toL ("false")) (c :: cs) then
        some (Json.bool false, (c :: cs).drop 5)
      else if startsWithL (toL ("null")) (c :: cs) then
        some (Json.null, (c :: cs).drop 4)
      else
        match parseIntLit (c :: cs) with
        | some (n, r) => some (Json.num n, r)
        | none => none

/-- Members of a JSON object, after the opening brace.  `first` marks
that no member has been read yet (so a closing brace is accepted). -/
def parseObjFields : Nat → List Char → JsonFields → Bool → Option (Json × List Char)
  | 0, _, _, _ => none
  | fuel + 1, l, acc, first =>
    match skipJsonWs l with
    | [] => none
    | c :: cs =>
      if c = closeBrace ∧ first then some (Json.obj acc, cs)
      else
        if c = dquote then
          match parseStringBody cs with
          | some (k, r1) =>
            match skipJsonWs r1 with
            | ':' :: r2 =>
              match parseVal fuel r2 with
              | some (v, r3) =>
                let acc2 := acc.setKey (String.mk k) v
                match skipJsonWs r3 with
                | ',' :: r4 => parseObjFields fuel r4 acc2 false
                | c2 :: r5 =>
                  if c2 = closeBrace then some (Json.obj acc2, r5) else none
                | [] => none
              | none => none
            | _ => none
          | none => none
        else none

/-- Elements of a JSON array, after the opening bracket. -/
def parseArrElems : Nat → List Char → JsonList → Bool → Option (Json × List Char)
  | 0, _, _, _ => none
  | fuel + 1, l, acc, first =>
    match skipJsonWs l with
    | [] => none
    | c :: cs =>
      if c = ']' ∧ first then some (Json.arr acc, cs)
      else
        match parseVal fuel (c :: cs) with
        | some (v, r1) =>
          match skipJsonWs r1 with
          | ',' :: r2 => parseArrElems fuel r2 (acc.append v) false
          | ']' :: r3 => some (Json.arr (acc.append v), r3)
          | _ => none
        | none => none
end

/-- Model of Python `json.loads`: parse one value, allow surrounding
whitespace, and reject trailing garbage (which raises
`JSONDecodeError`, i.e. yields `none`). -/
def jsonLoads (l : List Char) : Option Json :=
  match parseVal (l.length + 1) l with
  | some (j, rest) => if skipJsonWs rest = [] then some j else none
  | none => none

/-! ## Python `str()` / `repr()` of decoded JSON values

`str()` is applied by the code to tool results (f-string interpolation in
the `list_tasks` confirmation and the explain prompt) and to
`params.get("task_id", "")`. -/

mutual
def pyReprJ : Json → String
  | .null => "None"
  | .bool true => "True"
  | .bool false => "False"
  | .num n => toString n
  | .str s => String.mk (squote :: (s.data ++ [squote]))
  | .arr xs => "[" ++ pyReprL xs ++ "]"
  | .obj fs => String.mk [openBrace] ++ pyReprF fs ++ String.mk [closeBrace]

def pyReprL : JsonList → String
  | .nil => ""
  | .cons h .nil => pyReprJ h
  | .cons h (.cons h2 t) => pyReprJ h ++ ", " ++ pyReprL (.cons h2 t)

def pyReprF : JsonFields → String
  | .nil => ""
  | .cons k v .nil => String.mk (squote :: (k.data ++ [squote])) ++ ": " ++ pyReprJ v
  | .cons k v (.cons k2 v2 t) =>
    String.mk (squote :: (k.data ++ [squote])) ++ ": " ++ pyReprJ v ++ ", " ++
      pyReprF (.cons k2 v2 t)
end

/-- Python `str()` of a decoded JSON value. -/
def pyStrJ : Json → String
  | .str s => s
  | j => pyReprJ j

/-! ## Task rows, agent state, and the MCP tools -/

/-- Modelled from the spec: the `Task` row type (its model file
`app/models/task.py` is not under src).  Fields are exactly those read
and written by `TaskTools`; `title`, `description`, `due_date` and
`completed` hold the decoded JSON values the dispatcher passes through,
timestamps are opaque strings. -/
structure Task where
  id : String
  title : Json
  description : Json
  due_date : Json
  completed : Json
  user_id : String
  created_at : Json
  updated_at : Json
  deriving DecidableEq

/-- A `Conversation` row (`app/models/conversation.py`). -/
structure ConvRow where
  id : String
  user_id : String
  title : String
  is_active : Bool
  deriving DecidableEq

/-- A `Message` row (`app/models/message.py`). -/
structure MsgRow where
  conversation_id : String
  user_id : String
  role : String
  content : String
  deriving DecidableEq

/-- The database visible to the agent, plus a frozen clock (`now`) and id
counters standing in for autogenerated primary keys. -/
structure AgentState where
  tasks : List Task
  nextTaskId : Nat
  convos : List ConvRow
  nextConvoId : Nat
  msgs : List MsgRow
  now : String
  deriving DecidableEq

/-- The dict `TaskTools` builds from a row (`due_date.isoformat() if
due_date else None` is pass-through here because `due_date` already
holds the serialised value or `null`). -/
def taskToDict (t : Task) : Json :=
  .obj (.cons ("id") (.str t.id)
    (.cons ("title") t.title
      (.cons ("description") t.description
        (.cons ("due_date") t.due_date
          (.cons ("completed") t.completed
            (.cons ("user_id") (.str t.user_id)
              (.cons ("created_at") t.created_at
                (.cons ("updated_at") t.updated_at .nil))))))))

namespace TaskTools

/-- `TaskTools.add_task`: insert a new row owned by `user_id`. -/
def add_task (st : AgentState) (user_id : String) (title description due_date : Json) :
    AgentState × Json :=
  let t : Task :=
    { id := toString st.nextTaskId, title := title, description := description,
      due_date := due_date, completed := .bool false, user_id := user_id,
      created_at := .str st.now, updated_at := .str st.now }
  ({ st with tasks := st.tasks ++ [t], nextTaskId := st.nextTaskId + 1 }, taskToDict t)

/-- `TaskTools.list_tasks`: rows owned by `user_id`, optionally filtered
by completion status and truncated to `limit` (Python `if limit:` makes
`None` and `0` mean "no limit"). -/
def list_tasks (st : AgentState) (user_id : String) (status limit : Json) : Json :=
  let q1 := st.tasks.filter (fun t => t.user_id == user_id)
  let q2 :=
    if status = Json.str ("completed") then q1.filter (fun t => t.completed == Json.bool true)
    else if status = Json.str ("pending") then q1.filter (fun t => t.completed == Json.bool false)
    else q1
  let q3 :=
    match limit with
    | .num n => if n ≠ 0 then q2.take n.toNat else q2
    | _ => q2
  .arr (JsonList.ofList (q3.map taskToDict))

/-- First row matching `Task.id == task_id, Task.user_id == user_id`
(the `select ... .first()` used by complete/update). -/
def findTask (tasks : List Task) (user_id task_id : String) : Option Task :=
  tasks.find? (fun t => t.id == task_id && t.user_id == user_id)

/-- Replace the first row satisfying `p` (the ORM mutates the single
fetched row). -/
def replaceFirst (p : Task → Bool) (t2 : Task) : List Task → List Task
  | [] => []
  | t :: ts => if p t then t2 :: ts else t :: replaceFirst p t2 ts

/-- `TaskTools.complete_task`: `None` (here `none`) when no row matches
both the id and the caller. -/
def complete_task (st : AgentState) (user_id task_id : String) :
    AgentState × Option Json :=
  match findTask st.tasks user_id task_id with
  | none => (st, none)
  | some t =>
    let t2 := { t with completed := .bool true, updated_at := .str st.now }
    ({ st with tasks := replaceFirst (fun a => a.id == task_id && a.user_id == user_id) t2 st.tasks },
      some (taskToDict t2))

/-- `TaskTools.update_task`: only supplied (`is not None`) fields change. -/
def update_task (st : AgentState) (user_id task_id : String)
    (title description due_date completed : Option Json) : AgentState × Option Json :=
  match findTask st.tasks user_id task_id with
  | none => (st, none)
  | some t =>
    let t2 := { t with
      title := match title with | some v => v | none => t.title,
      description := match description with | some v => v | none => t.description,
      due_date := match due_date with | some v => v | none => t.due_date,
      completed := match completed with | some v => v | none => t.completed,
      updated_at := .str st.now }
    ({ st with tasks := replaceFirst (fun a => a.id == task_id && a.user_id == user_id) t2 st.tasks },
      some (taskToDict t2))

/-- `TaskTools.delete_task`: bulk `DELETE ... WHERE id == task_id AND
user_id == user_id`; `True` iff some row was removed. -/
def delete_task (st : AgentState) (user_id task_id : String) : AgentState × Bool :=
  let hit := fun (t : Task) => t.id == task_id && t.user_id == user_id
  ({ st with tasks := st.tasks.filter (fun t => !(hit t)) }, st.tasks.any hit)

end TaskTools

/-- `IdentityTool.get_current_user`: the authenticated pair, verbatim. -/
def get_current_user (user_id email : String) : Json :=
  .obj (.cons ("email") (.str email) (.cons ("user_id") (.str user_id) .nil))

/-! ## Tool dispatch -/

/-- Python `==` between a decoded JSON value and a string literal. -/
def isStrEq (j : Json) (s : String) : Bool :=
  match j with
  | .str t => t == s
  | _ => false

/-- Exceptions the dispatcher can raise: `ValueError` for a name outside
the registry, `AttributeError` when `.get` is called on a non-dict
`params`. -/
inductive PyErr where
  | unknownTool (tool : Json)
  | attrError
  deriving DecidableEq

/-- `ChatAgent._execute_tool_from_params` (lines 369-432): the fixed
registry, parameter defaults, `str()` coercion of `task_id`, and
`ValueError` for any other name. -/
def execute_tool_from_params (st : AgentState) (user_id email : String)
    (tool params : Json) : Except PyErr (AgentState × Json) :=
  if isStrEq tool ("add_task") then
    match params with
    | .obj fs =>
      .ok (TaskTools.add_task st user_id (fs.getD ("title") (.str (""))) (fs.getD ("description") (.str (""))) Json.null)
    | _ => .error .attrError
  else if isStrEq tool ("list_tasks") then
    match params with
    | .obj fs => .ok (st, TaskTools.list_tasks st user_id (fs.getD ("status") .null) (fs.getD ("limit") .null))
    | _ => .error .attrError
  else if isStrEq tool ("complete_task") then
    match params with
    | .obj fs =>
      match TaskTools.complete_task st user_id (pyStrJ (fs.getD ("task_id") (.str ("")))) with
      | (st2, some d) => .ok (st2, d)
      | (st2, none) => .ok (st2, Json.null)
    | _ => .error .attrError
  else if isStrEq tool ("delete_task") then
    match params with
    | .obj fs =>
      match TaskTools.delete_task st user_id (pyStrJ (fs.getD ("task_id") (.str ("")))) with
      | (st2, b) => .ok (st2, .bool b)
    | _ => .error .attrError
  else if isStrEq tool ("update_task") then
    match params with
    | .obj fs =>
      match TaskTools.update_task st user_id (pyStrJ (fs.getD ("task_id") (.str (""))))
          (fs.getOpt ("title")) (fs.getOpt ("description")) none (fs.getOpt ("completed")) with
      | (st2, some d) => .ok (st2, d)
      | (st2, none) => .ok (st2, Json.null)
    | _ => .error .attrError
  else if isStrEq tool ("get_current_user") then
    .ok (st, get_current_user user_id email)
  else
    .error (.unknownTool tool)

/-- `ChatAgent._execute_tool` (intent path, lines 166-210).  The final
`raise ValueError("Unknown tool")` is unreachable from
`process_message` because `_detect_intent` only produces registry
names; it is modelled as a no-op result. -/
def execute_tool (st : AgentState) (user_id email : String)
    (tool : String) (message : List Char) : AgentState × Json :=
  if tool == "add_task" then
    TaskTools.add_task st user_id (.str (String.mk message)) Json.null Json.null
  else if tool == "list_tasks" then
    (st, TaskTools.list_tasks st user_id Json.null Json.null)
  else if tool == "complete_task" then
    match TaskTools.complete_task st user_id (String.mk message) with
    | (st2, some d) => (st2, d)
    | (st2, none) => (st2, Json.null)
  else if tool == "delete_task" then
    match TaskTools.delete_task st user_id (String.mk message) with
    | (st2, b) => (st2, .bool b)
  else if tool == "get_current_user" then
    (st, get_current_user user_id email)
  else (st, Json.null)

/-! ## Intent classifier and field extractor -/

/-- `ChatAgent._detect_intent` (lines 109-123). -/
def detect_intent (message : List Char) : Option String :=
  let msg := pyLower message
  if containsStr msg (toL ("add")) || containsStr msg (toL ("create")) || containsStr msg (toL ("new task")) then
    some ("add_task")
  else if containsStr msg (toL ("delete")) || containsStr msg (toL ("remove")) then
    some ("delete_task")
  else if containsStr msg (toL ("complete")) || containsStr msg (toL ("done")) || containsStr msg (toL ("finish")) then
    some ("complete_task")
  else if containsStr msg (toL ("list")) || containsStr msg (toL ("show")) || containsStr msg (toL ("tasks")) then
    some ("list_tasks")
  else if containsStr msg (toL ("who am i")) || containsStr msg (toL ("my email")) then
    some ("get_current_user")
  else none

/-- `parts[1].strip().strip(chr(34)).strip(chr(39))`. -/
def dequoteTitle (l : List Char) : List Char :=
  pyStripChar squote (pyStripChar dquote (pyStrip l))

/-- The separator tokens of the `add_task` branch, in source order. -/
def addSeparators : List (List Char) :=
  [[dquote], [squote], toL ("task"), toL ("for me"), toL ("me"), toL ("to")]

/-- The `for separator in [...]` loop of `_extract_task_info` for
`add_task`: the first present separator whose cleaned remainder is
nonempty wins (an empty cleaned remainder falls through to the next
separator).  When a separator is present, `split(sep, 1)` always has a
second part, so the `len(parts) > 1` guard in the source is vacuous. -/
def addTitleLoop : List (List Char) → List Char → Option (List Char)
  | [], _ => none
  | sep :: rest, message =>
    if containsStr message sep then
      let title := dequoteTitle (afterFirst message sep)
      if title ≠ [] then some title else addTitleLoop rest message
    else addTitleLoop rest message

def isWordChar (c : Char) : Bool :=
  isDigitC c || ('a' ≤ c && c ≤ 'z') || ('A' ≤ c && c ≤ 'Z') || c = '_'

/-- Leftmost match of `\b(\d+)\b` (first argument: preceding character,
`none` at the start of the text). -/
def findNumberAux : Option Char → List Char → Option (List Char)
  | _, [] => none
  | prev, c :: cs =>
    if isDigitC c && (match prev with | some p => !(isWordChar p) | none => true) then
      let run := (c :: cs).takeWhile isDigitC
      match (c :: cs).dropWhile isDigitC with
      | [] => some run
      | r :: _ => if isWordChar r then findNumberAux (some c) cs else some run
    else findNumberAux (some c) cs

def isQuoteChar (c : Char) : Bool := c = dquote || c = squote

/-- Leftmost match group of a quote character, one-or-more non-quote
characters, then a quote character. -/
def findQuotedAux : List Char → Option (List Char)
  | [] => none
  | c :: cs =>
    if isQuoteChar c then
      let run := cs.takeWhile (fun a => !(isQuoteChar a))
      match cs.dropWhile (fun a => !(isQuoteChar a)) with
      | [] => findQuotedAux cs
      | _ :: _ => if run ≠ [] then some run else findQuotedAux cs
    else findQuotedAux cs

/-- `ChatAgent._extract_task_info` (lines 129-160). -/
def extract_task_info (message : List Char) (intent : String) : List Char :=
  if intent == "add_task" then
    match addTitleLoop addSeparators message with
    | some t => t
    | none => pyStrip message
  else if intent == "delete_task" || intent == "complete_task" then
    match findNumberAux none message with
    | some num => num
    | none =>
      match findQuotedAux message with
      | some q => q
      | none => pyStrip message
  else pyStrip message

/-! ## Brace-counting extraction (`ChatAgent._extract_json_object`) -/

/-- The scanning loop of `_extract_json_object`: `count` is
`brace_count` (an `Int`: stray closing braces drive it negative exactly
as in the source), `sbp` is `start_brace_pos` (`none` for `-1`). -/
def extractLoop : List Char → Nat → Int → Option Nat → Option (Nat × Nat)
  | [], _, _, _ => none
  | c :: rest, i, count, sbp =>
    if c = openBrace then
      extractLoop rest (i + 1) (count + 1) (if count = 0 then some i else sbp)
    else if c = closeBrace then
      if count - 1 = 0 then
        match sbp with
        | some b => some (b, i + 1)
        | none => extractLoop rest (i + 1) (count - 1) none
      else extractLoop rest (i + 1) (count - 1) sbp
    else extractLoop rest (i + 1) count sbp

/-- `ChatAgent._extract_json_object` (lines 344-367): `some (span, end)`
on success, `none` for the `(None, start_pos)` failure return. -/
def extract_json_object (text : List Char) (startPos : Nat) : Option (List Char × Nat) :=
  match extractLoop (text.drop startPos) startPos 0 none with
  | some (b, e) => some (pySlice text b e, e)
  | none => none

/-! ## The inline tool-call pattern and `re.finditer` -/

def matchLitChar (c : Char) : List Char → Option (List Char)
  | x :: r => if x = c then some r else none
  | [] => none

def matchLits : List Char → List Char → Option (List Char)
  | [], l => some l
  | p :: ps, l =>
    match matchLitChar p l with
    | some r => matchLits ps r
    | none => none

def matchQuoteCls : List Char → Option (List Char)
  | x :: r => if isQuoteChar x then some r else none
  | [] => none

/-- Matcher for the pattern
`\x7b\s*["\x27]tool["\x27]\s*:\s*["\x27][^"\x27]*["\x27]\s*,\s*["\x27]params["\x27]\s*:`
at the head of the input; on success returns the remaining suffix.
The greedy `\s*` and `[^"\x27]*` runs are deterministic here because the
character following each run is outside the run's class. -/
def inlinePatRest (l : List Char) : Option (List Char) :=
  (matchLitChar openBrace l).bind fun r1 =>
  (matchQuoteCls (r1.dropWhile isPyWs)).bind fun r3 =>
  (matchLits (toL ("tool")) r3).bind fun r4 =>
  (matchQuoteCls r4).bind fun r5 =>
  (matchLitChar ':' (r5.dropWhile isPyWs)).bind fun r7 =>
  (matchQuoteCls (r7.dropWhile isPyWs)).bind fun r9 =>
  (matchQuoteCls (r9.dropWhile (fun c => !(isQuoteChar c)))).bind fun r11 =>
  (matchLitChar ',' (r11.dropWhile isPyWs)).bind fun r13 =>
  (matchQuoteCls (r13.dropWhile isPyWs)).bind fun r15 =>
  (matchLits (toL ("params")) r15).bind fun r16 =>
  (matchQuoteCls r16).bind fun r17 =>
  (matchLitChar ':' (r17.dropWhile isPyWs)).map fun r19 => r19

/-- `re.finditer` start offsets: scan left to right, jumping past each
match.  One fuel unit consumes at least one character, so
`text.length + 1` suffices. -/
def finditerAux : Nat → List Char → Nat → List Nat
  | 0, _, _ => []
  | _, [], _ => []
  | fuel + 1, c :: cs, i =>
    match inlinePatRest (c :: cs) with
    | some rest => i :: finditerAux fuel rest (i + ((c :: cs).length - rest.length))
    | none => finditerAux fuel cs (i + 1)

def finditerPositions (text : List Char) : List Nat :=
  finditerAux (text.length + 1) text 0

/-! ## Response rewriting -/

def paramsHasTitle (params : Json) : Bool :=
  match params with
  | .obj fs => fs.hasKey ("title")
  | _ => false

def paramsTitle (params : Json) : Json :=
  match params with
  | .obj fs => fs.getD ("title") .null
  | _ => .null

/-- The confirmation sentence appended after a successful dispatch
(identical `if/elif` chains at lines 274-281 and 329-336 of
`chat_agent.py`); empty for tools outside the four listed ones.  A
non-dict `params` cannot reach this point for `add_task` (dispatch
would have raised `AttributeError` first). -/
def confirmation (tool params result : Json) : List Char :=
  if isStrEq tool ("add_task") && paramsHasTitle params then
    toL ("\n\nI\x27ve added \x27") ++ toL (pyStrJ (paramsTitle params)) ++ toL ("\x27 to your tasks.")
  else if isStrEq tool ("delete_task") then
    toL ("\n\nI\x27ve deleted the task as requested.")
  else if isStrEq tool ("complete_task") then
    toL ("\n\nI\x27ve marked the task as completed.")
  else if isStrEq tool ("list_tasks") then
    toL ("\n\nHere are your tasks: ") ++ toL (pyStrJ result)
  else []

/-- A recorded dispatch (instrumentation: the Python loop has no log;
this field only counts and orders executions for the statements). -/
abbrev Inv := Json × Json

def fenceMarker : List Char := [btick, btick, btick]

def actionDone : List Char := toL ("Action completed successfully.")

/-- Pass A (lines 236-290): the fenced-block `while` loop.  `fuel`
bounds iterations; on exhaustion the current text is returned (the
Python loop always terminates: a non-accepting iteration strictly
advances `pos`, an accepting one strictly shrinks the text).  An
accepted block is removed with `replace` (all occurrences) followed by
`strip`, the confirmation is appended, and scanning restarts at 0; a
dispatch exception aborts the whole scan. -/
def passALoop (user_id email : String) :
    Nat → AgentState → List Char → Nat → List Inv →
    (Except PyErr (List Char)) × AgentState × List Inv
  | 0, st, text, _, log => (.ok text, st, log)
  | fuel + 1, st, text, pos, log =>
    if pos < text.length then
      match findStr text fenceMarker pos with
      | none => (.ok text, st, log)
      | some startPos =>
        match findStr text [nlChar] startPos with
        | none => (.ok text, st, log)
        | some openingEnd =>
          match findStr text fenceMarker (openingEnd + 1) with
          | none => (.ok text, st, log)
          | some endPos =>
            match jsonLoads (pyStrip (pySlice text (openingEnd + 1) endPos)) with
            | some (Json.obj fields) =>
              if fields.hasKey ("tool") && fields.hasKey ("params") then
                let tool := fields.getD ("tool") .null
                let params := fields.getD ("params") .null
                match execute_tool_from_params st user_id email tool params with
                | .error e => (.error e, st, log)
                | .ok (st2, result) =>
                  let fullBlock := pySlice text startPos (endPos + 3)
                  let t3 := pyStrip (replaceAll text fullBlock) ++ confirmation tool params result
                  passALoop user_id email fuel st2 t3 0 (log ++ [(tool, params)])
              else passALoop user_id email fuel st text (endPos + 3) log
            | _ => passALoop user_id email fuel st text (endPos + 3) log
    else (.ok text, st, log)

/-- Pass B (lines 302-341): fold over the candidate start offsets (the
caller passes them already reversed, i.e. in descending order).  Each
accepted extraction splices out `text[:start] + text[end:]`, strips,
and appends the confirmation; malformed candidates are dropped
silently. -/
def passBFold (user_id email : String) :
    List Nat → AgentState → List Char → List Inv →
    (Except PyErr (List Char)) × AgentState × List Inv
  | [], st, text, log => (.ok text, st, log)
  | p :: ps, st, text, log =>
    match extract_json_object text p with
    | none => passBFold user_id email ps st text log
    | some (jsonStr, endPos) =>
      match jsonLoads jsonStr with
      | some (Json.obj fields) =>
        if fields.hasKey ("tool") && fields.hasKey ("params") then
          let tool := fields.getD ("tool") .null
          let params := fields.getD ("params") .null
          match execute_tool_from_params st user_id email tool params with
          | .error e => (.error e, st, log)
          | .ok (st2, result) =>
            let t3 := pyStrip (text.take p ++ text.drop endPos) ++ confirmation tool params result
            passBFold user_id email ps st2 t3 (log ++ [(tool, params)])
        else passBFold user_id email ps st text log
      | _ => passBFold user_id email ps st text log

def passAFuel (text : List Char) : Nat := (text.length + 2) * (text.length + 2)

/-- `ChatAgent._process_ai_response_for_tools` (lines 216-342): Pass A,
then Pass B over the offsets of the inline pattern in the text Pass A
produced, processed in reverse; finally the empty/whitespace result is
replaced by the fixed generic completion sentence. -/
def process_ai_response_for_tools (st : AgentState) (user_id email : String)
    (text : List Char) : (Except PyErr (List Char)) × AgentState × List Inv :=
  match passALoop user_id email (passAFuel text) st text 0 [] with
  | (.error e, st1, log1) => (.error e, st1, log1)
  | (.ok t1, st1, log1) =>
    match passBFold user_id email (finditerPositions t1).reverse st1 t1 log1 with
    | (.error e, st2, log2) => (.error e, st2, log2)
    | (.ok t2, st2, log2) =>
      (.ok (if pyStrip t2 = [] then actionDone else t2), st2, log2)

/-! ## Turn orchestration (`ChatAgent.process_message`) and the HTTP
endpoint (`app/api/chat.py`) -/

inductive PyVal where
  | pstr (s : String)
  | pnone
  deriving DecidableEq

abbrev PyDict := List (String × PyVal)

/-- Python `d[k]`; `none` is a `KeyError`. -/
def pyDictGet (d : PyDict) (k : String) : Option PyVal :=
  (d.find? (fun kv => kv.1 == k)).map (fun kv => kv.2)

/-- `_create_or_get_conversation`: reuse the caller's conversation only
if it exists and is owned by them, otherwise insert a fresh row. -/
def create_or_get_conversation (st : AgentState) (cid : Option String)
    (user_id : String) : String × AgentState :=
  let freshId := toString st.nextConvoId
  let fresh : String × AgentState :=
    (freshId,
      { st with
        convos := st.convos ++ [{ id := freshId, user_id := user_id, title := "AI Chat Session", is_active := true }],
        nextConvoId := st.nextConvoId + 1 })
  match cid with
  | some c => if st.convos.any (fun v => v.id == c && v.user_id == user_id) then (c, st) else fresh
  | none => fresh

/-- `_save_message`: append one row to the conversation log. -/
def save_message (st : AgentState) (conversation_id user_id role content : String) :
    AgentState :=
  { st with msgs := st.msgs ++ [{ conversation_id := conversation_id, user_id := user_id, role := role, content := content }] }

/-- The explain prompt of the intent path (lines 475-482). -/
def explainPrompt (intent : String) (toolResult : Json) : List Char :=
  toL ("\nAn action was performed successfully.\n\nAction: ") ++ toL intent ++
    toL ("\nResult: ") ++ toL (pyStrJ toolResult) ++
    toL ("\n\nRespond to the user in one short, friendly sentence.\n")

def apologyMsg : String := "Sorry, something went wrong while processing your request."

/-- The dict `process_message` returns on success (lines 511-516):
exactly the keys `conversation_id`, `message`, `tool_result` (literally
`None`), `timestamp`. -/
def successDict (conv : String) (msg : List Char) (now : String) : PyDict :=
  [("conversation_id", .pstr conv), ("message", .pstr (String.mk msg)),
    ("tool_result", .pnone), ("timestamp", .pstr now)]

/-- The dict returned from the `except` handler (lines 520-525). -/
def apologyDict (conv : String) (now : String) : PyDict :=
  [("conversation_id", .pstr conv), ("message", .pstr apologyMsg),
    ("tool_result", .pnone), ("timestamp", .pstr now)]

/-- `ChatAgent.process_message` (lines 438-525).  The generative service
is an uninterpreted function `llm` from the prompt to the reply (history
and temperature do not affect the modelled control flow).  The only
exception source inside the `try` is the scanner/dispatcher; it lands in
the `except` branch, which keeps all state already committed. -/
def process_message (st : AgentState) (user_id email : String)
    (message : List Char) (cid : Option String)
    (llm : List Char → List Char) : PyDict × AgentState :=
  let (conv, st1) := create_or_get_conversation st cid user_id
  let st2 := save_message st1 conv user_id ("user") (String.mk message)
  match detect_intent message with
  | some intent =>
    let info := extract_task_info message intent
    match execute_tool st2 user_id email intent info with
    | (st3, toolResult) =>
      let assistant := llm (explainPrompt intent toolResult)
      let st4 := save_message st3 conv user_id ("assistant") (String.mk assistant)
      (successDict conv assistant st.now, st4)
  | none =>
    let aiResp := llm message
    match process_ai_response_for_tools st2 user_id email aiResp with
    | (.ok finalText, st3, _) =>
      let st4 := save_message st3 conv user_id ("assistant") (String.mk finalText)
      (successDict conv finalText st.now, st4)
    | (.error _, st3, _) => (apologyDict conv st.now, st3)

/-- What the endpoint hands back: a built `ChatResponse`, or the 500 the
catch-all `except` converts any exception into. -/
inductive EndpointOut where
  | response (conversation_id message task_operations timestamp : PyVal)
  | httpError (code : Nat)
  deriving DecidableEq

/-- `chat_endpoint` response construction (lines 66-81): reading
`result["task_operations"]` raises `KeyError`, which the generic
handler converts to HTTP 500. -/
def chat_endpoint_build (result : PyDict) : EndpointOut :=
  match pyDictGet result ("conversation_id"), pyDictGet result ("message"),
      pyDictGet result ("task_operations"), pyDictGet result ("timestamp") with
  | some c, some m, some ops, some ts => .response c m ops ts
  | _, _, _, _ => .httpError 500

/-! ## Auxiliary definitions used by the statements -/

/-- Net brace depth of a character list (`+1` per opening, `-1` per
closing brace). -/
def braceDepth (cs : List Char) : Int :=
  List.foldl (fun d c => d + (if c = openBrace then 1 else if c = closeBrace then -1 else 0)) 0 cs

/-- Does a decode result pass the scanner's acceptance test
(`isinstance(x, dict) and "tool" in x and "params" in x`)? -/
def isToolCallJson : Option Json → Bool
  | some (Json.obj fs) => fs.hasKey ("tool") && fs.hasKey ("params")
  | _ => false

/-- The fenced-block candidate Pass A would examine with its cursor at
`pos`: the stripped inner text between the first fence pair found from
`pos` (mirrors the three `find` calls of the loop body). -/
def passACandidateAt (text : List Char) (pos : Nat) : Option (List Char) :=
  match findStr text fenceMarker pos with
  | none => none
  | some startPos =>
    match findStr text [nlChar] startPos with
    | none => none
    | some openingEnd =>
      match findStr text fenceMarker (openingEnd + 1) with
      | none => none
      | some endPos => some (pyStrip (pySlice text (openingEnd + 1) endPos))

/-- "The Pass A candidate at cursor `pos` (if any) fails the acceptance
test": decode failure, non-dict, or missing `tool`/`params` keys. -/
def passAUnaccepted (text : List Char) (pos : Nat) : Bool :=
  match passACandidateAt text pos with
  | some c => !(isToolCallJson (jsonLoads c))
  | none => true

/-- "The Pass B candidate at offset `p` (if any) fails the acceptance
test": no balanced extraction, decode failure, non-dict, or missing
`tool`/`params` keys. -/
def passBUnaccepted (text : List Char) (p : Nat) : Bool :=
  match extract_json_object text p with
  | some (s, _) => !(isToolCallJson (jsonLoads s))
  | none => true

/-! ## Concrete fixtures for witnesses and counterexamples -/

def stEmpty : AgentState := ⟨[], 0, [], 0, [], ("t0")⟩

def aliceTask : Task :=
  ⟨("1"), .str ("milk"), .null, .null, .bool false, ("alice"), .str ("t0"), .str ("t0")⟩

def stAlice : AgentState := ⟨[aliceTask], 2, [], 0, [], ("t0")⟩

/-- Inline call `\x7b"tool": "delete_task", "params": \x7b"task_id": "7"\x7d\x7d`. -/
def inlineDelete7 : List Char :=
  toL ("\x7b\"tool\": \"delete_task\", \"params\": \x7b\"task_id\": \"7\"\x7d\x7d")

/-- Inline call `\x7b"tool": "complete_task", "params": \x7b"task_id": "9"\x7d\x7d`. -/
def inlineComplete9 : List Char :=
  toL ("\x7b\"tool\": \"complete_task\", \"params\": \x7b\"task_id\": \"9\"\x7d\x7d")

/-- Assistant text with a fenced block naming a tool outside the registry. -/
def fencedUnknownText : List Char :=
  toL ("Ok\n\x60\x60\x60json\n\x7b\"tool\": \"mystery_tool\", \"params\": \x7b\x7d\x7d\n\x60\x60\x60")

/-- Assistant text with a fenced `get_current_user` call. -/
def fencedGcuText : List Char :=
  toL ("Hi\n\x60\x60\x60\n\x7b\"tool\": \"get_current_user\", \"params\": \x7b\x7d\x7d\n\x60\x60\x60")

/-! # Theorems -/

/-! ## Helper lemmas: scanning primitives -/

theorem startsWithL_append_self (pat rest : List Char) :
    startsWithL pat (pat ++ rest) = true := by
  induction pat with
  | nil => rfl
  | cons c cs ih => simp [startsWithL, ih]

theorem startsWithL_head_ne (pat : List Char) (c0 : Char) (hc : pat.head? = some c0)
    (a : Char) (ha : a ≠ c0) (l : List Char) :
    startsWithL pat (a :: l) = false := by
  cases pat with
  | nil => simp at hc
  | cons p ps =>
    simp only [List.head?_cons, Option.some.injEq] at hc
    subst hc
    have hd : (decide (p = a)) = false := decide_eq_false (fun h => ha h.symm)
    simp [startsWithL, hd]

theorem findStrAux_skip (pat : List Char) (c0 : Char) (hc : pat.head? = some c0) :
    ∀ (pre rest : List Char) (i : Nat), (∀ c ∈ pre, c ≠ c0) →
      findStrAux pat (pre ++ rest) i = findStrAux pat rest (i + pre.length) := by
  intro pre
  induction pre with
  | nil => intro rest i _; simp
  | cons a tl ih =>
    intro rest i hfree
    have ha : a ≠ c0 := hfree a (by simp)
    have h1 : startsWithL pat (a :: (tl ++ rest)) = false :=
      startsWithL_head_ne pat c0 hc a ha _
    simp only [List.cons_append, findStrAux, List.append_eq]
    rw [if_neg (by rw [h1]; simp)]
    rw [ih rest (i + 1) (fun c hcm => hfree c (by simp [hcm]))]
    have harith : i + 1 + tl.length = i + (a :: tl).length := by
      simp [List.length_cons]; omega
    rw [harith]

theorem findStrAux_here (pat rest : List Char) (i : Nat)
    (h : startsWithL pat rest = true) : findStrAux pat rest i = some i := by
  cases rest with
  | nil =>
    cases pat with
    | nil => rfl
    | cons p ps => simp [startsWithL] at h
  | cons c cs => simp [findStrAux, h]

theorem findStrAux_none (pat : List Char) (c0 : Char) (hc : pat.head? = some c0)
    (l : List Char) (hfree : ∀ c ∈ l, c ≠ c0) (i : Nat) :
    findStrAux pat l i = none := by
  induction l generalizing i with
  | nil =>
    cases pat with
    | nil => simp at hc
    | cons p ps => simp [findStrAux]
  | cons a tl ih =>
    have ha : a ≠ c0 := hfree a (by simp)
    have h1 : startsWithL pat (a :: tl) = false :=
      startsWithL_head_ne pat c0 hc a ha _
    simp only [findStrAux, h1, Bool.false_eq_true, if_false]
    exact ih (fun c hcm => hfree c (by simp [hcm])) (i + 1)

/-- `find` on `pre ++ rest` from 0 when `pre` avoids the pattern's first
character and the pattern starts `rest`. -/
theorem findStr_boundary (pre rest pat : List Char) (c0 : Char)
    (hc : pat.head? = some c0) (hfree : ∀ c ∈ pre, c ≠ c0)
    (hhit : startsWithL pat rest = true) :
    findStr (pre ++ rest) pat 0 = some pre.length := by
  unfold findStr
  rw [List.drop_zero, findStrAux_skip pat c0 hc pre rest 0 hfree,
    findStrAux_here pat rest _ hhit]
  simp

/-- `find` from an offset that lands exactly at `pre2 ++ rest` inside
the text. -/
theorem findStr_boundary_from (text pre2 rest pat : List Char) (start : Nat)
    (hdrop : text.drop start = pre2 ++ rest) (c0 : Char)
    (hc : pat.head? = some c0) (hfree : ∀ c ∈ pre2, c ≠ c0)
    (hhit : startsWithL pat rest = true) :
    findStr text pat start = some (start + pre2.length) := by
  unfold findStr
  rw [hdrop, findStrAux_skip pat c0 hc pre2 rest start hfree,
    findStrAux_here pat rest _ hhit]

theorem findStr_none_of_free (text pat : List Char) (c0 : Char)
    (hc : pat.head? = some c0) (hfree : ∀ c ∈ text, c ≠ c0) (start : Nat) :
    findStr text pat start = none := by
  unfold findStr
  exact findStrAux_none pat c0 hc _
    (fun c hcm => hfree c (List.mem_of_mem_drop hcm)) _

/-! ## Helper lemmas: `replace` -/

theorem replaceAllAux_free (blk : List Char) (c0 : Char) (hc : blk.head? = some c0)
    (l : List Char) (hfree : ∀ c ∈ l, c ≠ c0) :
    ∀ fuel, replaceAllAux blk fuel l = l := by
  induction l with
  | nil => intro fuel; cases fuel <;> rfl
  | cons a tl ih =>
    intro fuel
    cases fuel with
    | zero => rfl
    | succ f =>
      have ha : a ≠ c0 := hfree a (by simp)
      have h1 : startsWithL blk (a :: tl) = false :=
        startsWithL_head_ne blk c0 hc a ha _
      simp only [replaceAllAux, h1, Bool.false_eq_true, if_false]
      rw [ih (fun c hcm => hfree c (by simp [hcm])) f]

theorem replaceAllAux_once (blk : List Char) (c0 : Char) (hc : blk.head? = some c0)
    (post : List Char) (hpost : ∀ c ∈ post, c ≠ c0) :
    ∀ (pre : List Char) (fuel : Nat), (∀ c ∈ pre, c ≠ c0) → pre.length < fuel →
      replaceAllAux blk fuel (pre ++ blk ++ post) = pre ++ post := by
  intro pre
  induction pre with
  | nil =>
    intro fuel _ hfuel
    cases fuel with
    | zero => omega
    | succ f =>
      have hblk : blk ≠ [] := by
        cases blk
        · simp at hc
        · simp
      cases hb : (blk ++ post) with
      | nil =>
        rcases List.append_eq_nil.mp hb with ⟨h1, _⟩
        exact absurd h1 hblk
      | cons b bs =>
        simp only [List.nil_append]
        rw [hb]
        have hsw : startsWithL blk (b :: bs) = true := by
          rw [← hb]; exact startsWithL_append_self blk post
        simp only [replaceAllAux, hsw, if_true]
        rw [← hb, List.drop_left]
        exact replaceAllAux_free blk c0 hc post hpost f
  | cons a tl ih =>
    intro fuel hfree hfuel
    cases fuel with
    | zero => omega
    | succ f =>
      have ha : a ≠ c0 := hfree a (by simp)
      have h1 : startsWithL blk (a :: (tl ++ blk ++ post)) = false :=
        startsWithL_head_ne blk c0 hc a ha _
      simp only [List.cons_append, List.append_assoc] at *
      simp only [replaceAllAux, h1, Bool.false_eq_true, if_false]
      have := ih f (fun c hcm => hfree c (by simp [hcm])) (by simp at hfuel ⊢; omega)
      simp only [List.append_assoc] at this
      rw [this]

/-- `text.replace(block, "")` removes the single occurrence of `block`
when the rest of the text avoids the block's first character. -/
theorem replaceAll_single (pre blk post : List Char) (c0 : Char)
    (hc : blk.head? = some c0) (hpre : ∀ c ∈ pre, c ≠ c0)
    (hpost : ∀ c ∈ post, c ≠ c0) :
    replaceAll (pre ++ blk ++ post) blk = pre ++ post := by
  have hblk : blk ≠ [] := by
    cases blk
    · simp at hc
    · simp
  unfold replaceAll
  rw [if_neg hblk]
  exact replaceAllAux_once blk c0 hc post hpost pre _ hpre (by simp; omega)

/-! ## Helper lemmas: brace depth and the extraction loop -/

theorem braceDepth_fold (l : List Char) (x : Int) :
    List.foldl (fun d c => d + (if c = openBrace then 1 else if c = closeBrace then -1 else 0)) x l
      = x + braceDepth l := by
  induction l generalizing x with
  | nil => simp [braceDepth]
  | cons c tl ih =>
    rw [List.foldl_cons, ih]
    have h1 : braceDepth (c :: tl) =
        (0 + (if c = openBrace then (1 : Int) else if c = closeBrace then -1 else 0)) +
          braceDepth tl := by
      conv_lhs => rw [braceDepth]
      rw [List.foldl_cons, ih]
    rw [h1]
    omega

theorem braceDepth_cons (c : Char) (l : List Char) :
    braceDepth (c :: l) =
      (if c = openBrace then 1 else if c = closeBrace then -1 else 0) + braceDepth l := by
  have h := braceDepth_fold l (0 + (if c = openBrace then 1 else if c = closeBrace then -1 else 0))
  unfold braceDepth
  simp only [List.foldl_cons]
  rw [h, braceDepth_fold l 0]
  omega

theorem extractLoop_found :
    ∀ (cs : List Char) (n : Nat) (i b : Nat) (count : Int), 0 < count →
      n ≤ cs.length →
      braceDepth (cs.take n) = -count →
      (∀ m : Nat, m < n → braceDepth (cs.take m) ≠ -count) →
      extractLoop cs i count (some b) = some (b, i + n) := by
  intro cs
  induction cs with
  | nil =>
    intro n i b count hpos hlen hz _
    have hn : n = 0 := Nat.le_zero.mp hlen
    subst hn
    simp [braceDepth] at hz
    omega
  | cons c rest ih =>
    intro n i b count hpos hlen hz hmin
    cases n with
    | zero =>
      simp [braceDepth] at hz
      omega
    | succ n' =>
      rw [List.take_succ_cons, braceDepth_cons] at hz
      by_cases hco : c = openBrace
      · rw [if_pos hco] at hz
        simp only [extractLoop, if_pos hco, if_neg (by omega : ¬ count = 0)]
        have hres := ih n' (i + 1) b (count + 1) (by omega)
          (by simp at hlen; omega) (by omega) ?_
        · rw [hres]
          have : i + 1 + n' = i + (n' + 1) := by omega
          rw [this]
        · intro m hm hEq
          apply hmin (m + 1) (by omega)
          rw [List.take_succ_cons, braceDepth_cons, if_pos hco]
          omega
      · by_cases hcc : c = closeBrace
        · rw [if_neg hco, if_pos hcc] at hz
          by_cases h1 : count = 1
          · have hn' : n' = 0 := by
              by_contra hne
              apply hmin 1 (by omega)
              rw [show (1 : Nat) = 0 + 1 from rfl, List.take_succ_cons, braceDepth_cons,
                if_neg hco, if_pos hcc]
              simp [braceDepth]
              omega
            subst hn'
            simp only [extractLoop, if_neg hco, if_pos hcc, if_pos (by omega : count - 1 = 0)]
          · simp only [extractLoop, if_neg hco, if_pos hcc,
              if_neg (by omega : ¬ count - 1 = 0)]
            have hres := ih n' (i + 1) b (count - 1) (by omega)
              (by simp at hlen; omega) (by omega) ?_
            · rw [hres]
              have : i + 1 + n' = i + (n' + 1) := by omega
              rw [this]
            · intro m hm hEq
              apply hmin (m + 1) (by omega)
              rw [List.take_succ_cons, braceDepth_cons, if_neg hco, if_pos hcc]
              omega
        · rw [if_neg hco, if_neg hcc] at hz
          simp only [extractLoop, if_neg hco, if_neg hcc]
          have hres := ih n' (i + 1) b count hpos
            (by simp at hlen; omega) (by omega) ?_
          · rw [hres]
            have : i + 1 + n' = i + (n' + 1) := by omega
            rw [this]
          · intro m hm hEq
            apply hmin (m + 1) (by omega)
            rw [List.take_succ_cons, braceDepth_cons, if_neg hco, if_neg hcc]
            omega

theorem extractLoop_never_zero :
    ∀ (cs : List Char) (i b : Nat) (count : Int), 0 < count →
      (∀ m : Nat, braceDepth (cs.take m) ≠ -count) →
      extractLoop cs i count (some b) = none := by
  intro cs
  induction cs with
  | nil => intro i b count _ _; rfl
  | cons c rest ih =>
    intro i b count hpos hnz
    by_cases hco : c = openBrace
    · simp only [extractLoop, if_pos hco, if_neg (by omega : ¬ count = 0)]
      apply ih (i + 1) b (count + 1) (by omega)
      intro m hEq
      apply hnz (m + 1)
      rw [List.take_succ_cons, braceDepth_cons, if_pos hco]
      omega
    · by_cases hcc : c = closeBrace
      · by_cases h1 : count = 1
        · exfalso
          apply hnz 1
          rw [show (1 : Nat) = 0 + 1 from rfl, List.take_succ_cons, braceDepth_cons,
            if_neg hco, if_pos hcc]
          simp [braceDepth]
          omega
        · simp only [extractLoop, if_neg hco, if_pos hcc,
            if_neg (by omega : ¬ count - 1 = 0)]
          apply ih (i + 1) b (count - 1) (by omega)
          intro m hEq
          apply hnz (m + 1)
          rw [List.take_succ_cons, braceDepth_cons, if_neg hco, if_pos hcc]
          omega
      · simp only [extractLoop, if_neg hco, if_neg hcc]
        apply ih (i + 1) b count hpos
        intro m hEq
        apply hnz (m + 1)
        rw [List.take_succ_cons, braceDepth_cons, if_neg hco, if_neg hcc]
        omega

/-- C6 (amended): when the candidate offset sits on an opening brace —
which Pass B guarantees, its pattern starting with a brace —
`_extract_json_object` returns the minimal brace-balanced region from
the offset byte-for-byte together with the position just past it, and
returns `none` when the depth never returns to zero. -/
theorem claim_C6_extraction_correct (text : List Char) (p : Nat)
    (hhd : (text.drop p).head? = some openBrace) :
    (∀ n : Nat, 0 < n → n ≤ (text.drop p).length →
      braceDepth ((text.drop p).take n) = 0 →
      (∀ m : Nat, m < n → 0 < m → braceDepth ((text.drop p).take m) ≠ 0) →
      extract_json_object text p = some ((text.drop p).take n, p + n)) ∧
    ((∀ m : Nat, 0 < m → braceDepth ((text.drop p).take m) ≠ 0) →
      extract_json_object text p = none) := by
  rcases hcs : text.drop p with _ | ⟨c, rest⟩
  · rw [hcs] at hhd; simp at hhd
  · rw [hcs] at hhd
    simp only [List.head?_cons, Option.some.injEq] at hhd
    subst hhd
    have hstep : extractLoop (openBrace :: rest) p 0 none =
        extractLoop rest (p + 1) 1 (some p) := by
      simp [extractLoop]
    constructor
    · intro n hn hlen hz hmin
      unfold extract_json_object
      rw [hcs, hstep]
      cases n with
      | zero => omega
      | succ n' =>
        rw [List.take_succ_cons, braceDepth_cons, if_pos rfl] at hz
        have hres := extractLoop_found rest n' (p + 1) p 1 (by omega)
          (by simp at hlen; omega) (by omega) ?_
        · rw [hres]
          have harith : p + 1 + n' = p + (n' + 1) := by omega
          rw [harith]
          show some (pySlice text p (p + (n' + 1)), p + (n' + 1)) = _
          unfold pySlice
          have h2 : p + (n' + 1) - p = n' + 1 := by omega
          rw [h2, hcs]
        · intro m hm hEq
          apply hmin (m + 1) (by omega) (by omega)
          rw [List.take_succ_cons, braceDepth_cons, if_pos rfl]
          omega
    · intro hnz
      unfold extract_json_object
      rw [hcs, hstep]
      rw [extractLoop_never_zero rest (p + 1) p 1 (by omega) ?_]
      intro m hEq
      apply hnz (m + 1) (by omega)
      rw [List.take_succ_cons, braceDepth_cons, if_pos rfl]
      omega

/-- C6 witness: on `x\x7ba\x7bb\x7dc\x7dy` at offset 1 the minimal
balanced region has length 7; extraction returns it with position 8. -/
theorem claim_C6_extraction_correct_witness :
    extract_json_object (toL ("x\x7ba\x7bb\x7dc\x7dy")) 1 =
      some (((toL ("x\x7ba\x7bb\x7dc\x7dy")).drop 1).take 7, 1 + 7) :=
  (claim_C6_extraction_correct (toL ("x\x7ba\x7bb\x7dc\x7dy")) 1 (by decide)).1 7
    (by decide) (by decide) (by decide) (by decide)

/-! ## Helper lemmas: the add-task separator loop -/

theorem addTitleLoop_spec (message : List Char) :
    ∀ seps : List (List Char),
      (∀ k : Nat, k < seps.length →
        containsStr message (seps.getD k []) = true →
        dequoteTitle (afterFirst message (seps.getD k [])) ≠ [] →
        (∀ j : Nat, j < k → containsStr message (seps.getD j []) = false ∨
          dequoteTitle (afterFirst message (seps.getD j [])) = []) →
        addTitleLoop seps message =
          some (dequoteTitle (afterFirst message (seps.getD k [])))) ∧
      ((∀ k : Nat, k < seps.length → containsStr message (seps.getD k []) = false ∨
          dequoteTitle (afterFirst message (seps.getD k [])) = []) →
        addTitleLoop seps message = none) := by
  intro seps
  induction seps with
  | nil =>
    constructor
    · intro k hk
      simp at hk
    · intro _
      rfl
  | cons sep rest ih =>
    have hskip : (containsStr message sep = false ∨
        dequoteTitle (afterFirst message sep) = []) →
        addTitleLoop (sep :: rest) message = addTitleLoop rest message := by
      intro h0
      rcases h0 with h0 | h0
      · simp [addTitleLoop, h0]
      · by_cases hc : containsStr message sep = true
        · simp [addTitleLoop, hc, h0]
        · simp only [Bool.not_eq_true] at hc
          simp [addTitleLoop, hc]
    constructor
    · intro k hk hcont hne hprior
      cases k with
      | zero =>
        simp only [List.getD_cons_zero] at hcont hne ⊢
        simp [addTitleLoop, hcont, hne]
      | succ k' =>
        have h0 := hprior 0 (by omega)
        simp only [List.getD_cons_zero] at h0
        rw [hskip h0]
        simp only [List.getD_cons_succ] at hcont hne ⊢
        exact ih.1 k' (by simp at hk; omega) hcont hne (fun j hj => by
          have hpj := hprior (j + 1) (by omega)
          simpa [List.getD_cons_succ] using hpj)
    · intro hall
      have h0 := hall 0 (by simp)
      simp only [List.getD_cons_zero] at h0
      rw [hskip h0]
      exact ih.2 (fun k hk => by
        have hpk := hall (k + 1) (by simp; omega)
        simpa [List.getD_cons_succ] using hpk)

/-- C10 (amended): for AddTask the extractor returns the trimmed,
de-quoted text after the split at the first separator — in the priority
order quote, single quote, `task`, `for me`, `me`, `to` — that is
present *and* whose cleaned remainder is nonempty; separators whose
remainder cleans to empty are skipped, and when every separator is
absent or yields an empty remainder the trimmed raw message is
returned. -/
theorem claim_C10_add_field_extraction (message : List Char) :
    (∀ k : Nat, k < addSeparators.length →
      containsStr message (addSeparators.getD k []) = true →
      dequoteTitle (afterFirst message (addSeparators.getD k [])) ≠ [] →
      (∀ j : Nat, j < k → containsStr message (addSeparators.getD j []) = false ∨
        dequoteTitle (afterFirst message (addSeparators.getD j [])) = []) →
      extract_task_info message ("add_task") =
        dequoteTitle (afterFirst message (addSeparators.getD k []))) ∧
    ((∀ k : Nat, k < addSeparators.length →
        containsStr message (addSeparators.getD k []) = false ∨
        dequoteTitle (afterFirst message (addSeparators.getD k [])) = []) →
      extract_task_info message ("add_task") = pyStrip message) := by
  have h := addTitleLoop_spec message addSeparators
  constructor
  · intro k hk h1 h2 h3
    unfold extract_task_info
    rw [h.1 k hk h1 h2 h3]
    rfl
  · intro hall
    unfold extract_task_info
    rw [h.2 hall]
    rfl

/-- C10 witness: `add a task to buy milk` splits at the separator
`task` (quotes are absent) and yields `to buy milk`. -/
theorem claim_C10_add_field_extraction_witness :
    extract_task_info (toL ("add a task to buy milk")) ("add_task") =
      toL ("to buy milk") := by
  have h := (claim_C10_add_field_extraction (toL ("add a task to buy milk"))).1 2
    (by decide) (by decide) (by decide) (by decide)
  rw [h]
  decide

/-! ## Helper lemmas: scans with no accepted candidate change nothing -/

theorem passALoop_no_accept (user_id email : String) (text : List Char)
    (H : ∀ pos : Nat, pos < text.length → passAUnaccepted text pos = true) :
    ∀ (fuel : Nat) (st : AgentState) (pos : Nat) (log : List Inv),
      passALoop user_id email fuel st text pos log = (.ok text, st, log) := by
  intro fuel
  induction fuel with
  | zero => intro st pos log; rfl
  | succ f ih =>
    intro st pos log
    by_cases hp : pos < text.length
    · cases h1 : findStr text fenceMarker pos with
      | none =>
        unfold passALoop
        rw [if_pos hp]
        simp only [h1]
      | some startPos =>
        cases h2 : findStr text [nlChar] startPos with
        | none =>
          unfold passALoop
          rw [if_pos hp]
          simp only [h1, h2]
        | some openingEnd =>
          cases h3 : findStr text fenceMarker (openingEnd + 1) with
          | none =>
            unfold passALoop
            rw [if_pos hp]
            simp only [h1, h2, h3]
          | some endPos =>
            have hU2 : isToolCallJson
                (jsonLoads (pyStrip (pySlice text (openingEnd + 1) endPos))) = false := by
              have hU := H pos hp
              unfold passAUnaccepted passACandidateAt at hU
              rw [h1] at hU
              simp only [h2, h3] at hU
              simpa using hU
            unfold passALoop
            rw [if_pos hp]
            simp only [h1, h2, h3]
            cases hj : jsonLoads (pyStrip (pySlice text (openingEnd + 1) endPos)) with
            | none =>
              simp only [hj]
              exact ih st (endPos + 3) log
            | some j =>
              cases j with
              | obj fields =>
                rw [hj] at hU2
                simp only [isToolCallJson] at hU2
                simp only [hj, hU2, Bool.false_eq_true, if_false]
                exact ih st (endPos + 3) log
              | null => simp only [hj]; exact ih st (endPos + 3) log
              | bool b => simp only [hj]; exact ih st (endPos + 3) log
              | num n => simp only [hj]; exact ih st (endPos + 3) log
              | str s => simp only [hj]; exact ih st (endPos + 3) log
              | arr xs => simp only [hj]; exact ih st (endPos + 3) log
    · unfold passALoop
      rw [if_neg hp]

theorem passBFold_no_accept (user_id email : String) (text : List Char) :
    ∀ ps : List Nat, (∀ p ∈ ps, passBUnaccepted text p = true) →
      ∀ (st : AgentState) (log : List Inv),
        passBFold user_id email ps st text log = (.ok text, st, log) := by
  intro ps
  induction ps with
  | nil => intro _ st log; rfl
  | cons p rest ih =>
    intro H st log
    have htail : ∀ q ∈ rest, passBUnaccepted text q = true :=
      fun q hq => H q (by simp [hq])
    cases hx : extract_json_object text p with
    | none =>
      unfold passBFold
      simp only [hx]
      exact ih htail st log
    | some se =>
      rcases se with ⟨s, e⟩
      have hU2 : isToolCallJson (jsonLoads s) = false := by
        have hU := H p (by simp)
        unfold passBUnaccepted at hU
        rw [hx] at hU
        simpa using hU
      unfold passBFold
      simp only [hx]
      cases hj : jsonLoads s with
      | none => simp only [hj]; exact ih htail st log
      | some j =>
        cases j with
        | obj fields =>
          rw [hj] at hU2
          simp only [isToolCallJson] at hU2
          simp only [hj, hU2, Bool.false_eq_true, if_false]
          exact ih htail st log
        | null => simp only [hj]; exact ih htail st log
        | bool b => simp only [hj]; exact ih htail st log
        | num n => simp only [hj]; exact ih htail st log
        | str s2 => simp only [hj]; exact ih htail st log
        | arr xs => simp only [hj]; exact ih htail st log

/-- C8 (amended): for any assistant text in which every fenced-block
candidate and every inline candidate fails the acceptance test (zero
well-formed embedded calls), the scanner performs zero dispatches,
leaves the state untouched, and returns the text exactly unchanged —
except that an empty-or-whitespace text is replaced by the fixed
generic completion sentence. -/
theorem claim_C8_no_calls_unchanged (st : AgentState) (user_id email : String)
    (text : List Char)
    (H1 : ∀ pos : Nat, pos < text.length → passAUnaccepted text pos = true)
    (H2 : ∀ p ∈ finditerPositions text, passBUnaccepted text p = true) :
    process_ai_response_for_tools st user_id email text =
      (.ok (if pyStrip text = [] then actionDone else text), st, []) := by
  unfold process_ai_response_for_tools
  rw [passALoop_no_accept user_id email text H1 (passAFuel text) st 0 []]
  simp only [passBFold_no_accept user_id email text (finditerPositions text).reverse
    (fun p hp => H2 p (List.mem_reverse.mp hp)) st []]

/-- C8 witness: a plain sentence passes through unchanged with zero
dispatches. -/
theorem claim_C8_no_calls_unchanged_witness :
    process_ai_response_for_tools stEmpty ("u1") ("e1") (toL ("No calls here.")) =
      (Except.ok (toL ("No calls here.")), stEmpty, []) := by
  have h := claim_C8_no_calls_unchanged stEmpty ("u1") ("e1") (toL ("No calls here."))
    (by decide) (by decide)
  rw [h]
  rfl

/-! ## Helper lemmas: the first Pass A iteration on a fenced block -/

/-- On `pre ++ fence ++ lang ++ newline ++ body ++ fence ++ post` (with
`pre`, `lang`, `body` backtick-free and `lang` newline-free), Pass A's
first iteration finds exactly this block, decodes the stripped body,
accepts it when it is a dict with `tool` and `params`, dispatches, and
either propagates the dispatch exception or continues on the rewritten
text with the confirmation appended. -/
theorem passA_fenced_step (user_id email : String) (st : AgentState) (f : Nat)
    (pre lang body post : List Char) (fields : JsonFields) (tool params : Json)
    (log : List Inv)
    (hpre : ∀ c ∈ pre, c ≠ btick)
    (hlang : ∀ c ∈ lang, c ≠ btick ∧ c ≠ nlChar)
    (hbody : ∀ c ∈ body, c ≠ btick)
    (hpost : ∀ c ∈ post, c ≠ btick)
    (hjson : jsonLoads (pyStrip body) = some (Json.obj fields))
    (htool : fields.lookup ("tool") = some tool)
    (hparams : fields.lookup ("params") = some params) :
    passALoop user_id email (f + 1) st
        (pre ++ (fenceMarker ++ (lang ++ ([nlChar] ++ (body ++ (fenceMarker ++ post)))))) 0 log =
      match execute_tool_from_params st user_id email tool params with
      | .error e => (.error e, st, log)
      | .ok (st2, result) =>
          passALoop user_id email f st2
            (pyStrip (pre ++ post) ++ confirmation tool params result) 0
            (log ++ [(tool, params)]) := by
  set T := pre ++ (fenceMarker ++ (lang ++ ([nlChar] ++ (body ++ (fenceMarker ++ post))))) with hT
  have hlen0 : 0 < T.length := by
    rw [hT]
    simp [fenceMarker]
  have hf1 : findStr T fenceMarker 0 = some pre.length := by
    rw [hT]
    exact findStr_boundary pre _ fenceMarker btick rfl hpre
      (startsWithL_append_self fenceMarker _)
  have hdrop1 : T.drop pre.length =
      (fenceMarker ++ lang) ++ ([nlChar] ++ (body ++ (fenceMarker ++ post))) := by
    rw [hT, List.drop_left]
    simp [List.append_assoc]
  have hf2 : findStr T [nlChar] pre.length =
      some (pre.length + (fenceMarker ++ lang).length) := by
    apply findStr_boundary_from T (fenceMarker ++ lang)
      ([nlChar] ++ (body ++ (fenceMarker ++ post))) [nlChar] pre.length hdrop1 nlChar rfl
    · intro c hc
      rcases List.mem_append.mp hc with hcf | hcl
      · simp [fenceMarker] at hcf
        rw [hcf]
        decide
      · exact (hlang c hcl).2
    · exact startsWithL_append_self [nlChar] _
  have hdrop2 : T.drop (pre.length + (fenceMarker ++ lang).length + 1) =
      body ++ (fenceMarker ++ post) := by
    have hsplit : T = (pre ++ (fenceMarker ++ (lang ++ [nlChar]))) ++
        (body ++ (fenceMarker ++ post)) := by
      rw [hT]
      simp [List.append_assoc]
    rw [hsplit, List.drop_left']
    simp
    omega
  have hf3 : findStr T fenceMarker (pre.length + (fenceMarker ++ lang).length + 1) =
      some (pre.length + (fenceMarker ++ lang).length + 1 + body.length) := by
    exact findStr_boundary_from T body (fenceMarker ++ post) fenceMarker _ hdrop2 btick rfl
      hbody (startsWithL_append_self fenceMarker _)
  have hslice1 : pySlice T (pre.length + (fenceMarker ++ lang).length + 1)
      (pre.length + (fenceMarker ++ lang).length + 1 + body.length) = body := by
    unfold pySlice
    rw [hdrop2]
    have h : pre.length + (fenceMarker ++ lang).length + 1 + body.length -
        (pre.length + (fenceMarker ++ lang).length + 1) = body.length := by omega
    rw [h, List.take_left]
  have hslice2 : pySlice T pre.length
      (pre.length + (fenceMarker ++ lang).length + 1 + body.length + 3) =
      fenceMarker ++ (lang ++ ([nlChar] ++ (body ++ fenceMarker))) := by
    unfold pySlice
    rw [hdrop1]
    have hgrp : (fenceMarker ++ lang) ++ ([nlChar] ++ (body ++ (fenceMarker ++ post))) =
        (fenceMarker ++ (lang ++ ([nlChar] ++ (body ++ fenceMarker)))) ++ post := by
      simp [List.append_assoc]
    rw [hgrp]
    have h : pre.length + (fenceMarker ++ lang).length + 1 + body.length + 3 - pre.length =
        (fenceMarker ++ (lang ++ ([nlChar] ++ (body ++ fenceMarker)))).length := by
      simp [fenceMarker]
      omega
    rw [h, List.take_left]
  have hrepl : replaceAll T (fenceMarker ++ (lang ++ ([nlChar] ++ (body ++ fenceMarker)))) =
      pre ++ post := by
    have hsplit : T = pre ++ (fenceMarker ++ (lang ++ ([nlChar] ++ (body ++ fenceMarker)))) ++ post := by
      rw [hT]
      simp [List.append_assoc]
    rw [hsplit]
    exact replaceAll_single pre (fenceMarker ++ (lang ++ ([nlChar] ++ (body ++ fenceMarker))))
      post btick rfl hpre hpost
  have hk1 : fields.hasKey ("tool") = true := by
    unfold JsonFields.hasKey
    rw [htool]
    rfl
  have hk2 : fields.hasKey ("params") = true := by
    unfold JsonFields.hasKey
    rw [hparams]
    rfl
  have hg1 : fields.getD ("tool") Json.null = tool := by
    unfold JsonFields.getD
    rw [htool]
  have hg2 : fields.getD ("params") Json.null = params := by
    unfold JsonFields.getD
    rw [hparams]
  conv_lhs => unfold passALoop
  rw [if_pos hlen0]
  simp only [hf1, hf2, hf3, hslice1, hjson, hk1, hk2, Bool.and_self, if_true, hg1, hg2,
    hslice2, hrepl]

theorem passAFuel_succ (text : List Char) : passAFuel text = (passAFuel text - 1) + 1 := by
  unfold passAFuel
  have hp : 0 < (text.length + 2) * (text.length + 2) := by positivity
  omega

/-- Dispatching any name outside the fixed registry raises
`ValueError` (`Unknown tool`). -/
theorem execute_unknown_tool (st : AgentState) (user_id email : String)
    (n : String) (params : Json)
    (h1 : n ≠ "add_task") (h2 : n ≠ "list_tasks") (h3 : n ≠ "complete_task")
    (h4 : n ≠ "delete_task") (h5 : n ≠ "update_task") (h6 : n ≠ "get_current_user") :
    execute_tool_from_params st user_id email (.str n) params =
      .error (.unknownTool (.str n)) := by
  unfold execute_tool_from_params
  have e1 : isStrEq (Json.str n) ("add_task") = false := by
    simp [isStrEq]
    exact h1
  have e2 : isStrEq (Json.str n) ("list_tasks") = false := by
    simp [isStrEq]
    exact h2
  have e3 : isStrEq (Json.str n) ("complete_task") = false := by
    simp [isStrEq]
    exact h3
  have e4 : isStrEq (Json.str n) ("delete_task") = false := by
    simp [isStrEq]
    exact h4
  have e5 : isStrEq (Json.str n) ("update_task") = false := by
    simp [isStrEq]
    exact h5
  have e6 : isStrEq (Json.str n) ("get_current_user") = false := by
    simp [isStrEq]
    exact h6
  simp only [e1, e2, e3, e4, e5, e6, Bool.false_eq_true, if_false]

theorem mem_of_mem_pyStrip {c : Char} {l : List Char} (h : c ∈ pyStrip l) : c ∈ l := by
  unfold pyStrip pyStripEnd at h
  rw [List.mem_reverse] at h
  have h2 := (List.dropWhile_sublist isPyWs).mem h
  rw [List.mem_reverse] at h2
  exact (List.dropWhile_sublist isPyWs).mem h2

/-- A backtick-free text has no Pass A candidate at any cursor. -/
theorem passAUnaccepted_of_btick_free (text : List Char)
    (hb : ∀ c ∈ text, c ≠ btick) (pos : Nat) :
    passAUnaccepted text pos = true := by
  unfold passAUnaccepted passACandidateAt
  rw [findStr_none_of_free text fenceMarker btick rfl hb pos]

/-- C1 (amended): a fenced block naming an unregistered tool is found
and accepted by Pass A, but the dispatch `ValueError` is raised *before*
the span-removal step, so the exception propagates out of the scanner —
nothing is removed, no text is returned, no dispatch is recorded — and
the turn orchestrator's catch-all converts the whole turn into the
fixed apology response. -/
theorem claim_C1_unknown_tool_aborts_scan
    (st : AgentState) (user_id email : String)
    (pre lang body post umsg : List Char) (fields : JsonFields) (n : String)
    (params : Json) (llm : List Char → List Char)
    (hpre : ∀ c ∈ pre, c ≠ btick)
    (hlang : ∀ c ∈ lang, c ≠ btick ∧ c ≠ nlChar)
    (hbody : ∀ c ∈ body, c ≠ btick)
    (hpost : ∀ c ∈ post, c ≠ btick)
    (hjson : jsonLoads (pyStrip body) = some (Json.obj fields))
    (htool : fields.lookup ("tool") = some (Json.str n))
    (hparams : fields.lookup ("params") = some params)
    (h1 : n ≠ "add_task") (h2 : n ≠ "list_tasks") (h3 : n ≠ "complete_task")
    (h4 : n ≠ "delete_task") (h5 : n ≠ "update_task") (h6 : n ≠ "get_current_user")
    (hintent : detect_intent umsg = none)
    (hllm : llm umsg =
      pre ++ (fenceMarker ++ (lang ++ ([nlChar] ++ (body ++ (fenceMarker ++ post)))))) :
    process_ai_response_for_tools st user_id email
        (pre ++ (fenceMarker ++ (lang ++ ([nlChar] ++ (body ++ (fenceMarker ++ post)))))) =
      (.error (.unknownTool (.str n)), st, []) ∧
    (process_message st user_id email umsg none llm).1 =
      apologyDict (toString st.nextConvoId) st.now := by
  have hscan : ∀ s : AgentState, process_ai_response_for_tools s user_id email
      (pre ++ (fenceMarker ++ (lang ++ ([nlChar] ++ (body ++ (fenceMarker ++ post)))))) =
      (.error (.unknownTool (.str n)), s, []) := by
    intro s
    unfold process_ai_response_for_tools
    rw [passAFuel_succ]
    rw [passA_fenced_step user_id email s _ pre lang body post fields (.str n) params []
      hpre hlang hbody hpost hjson htool hparams]
    rw [execute_unknown_tool s user_id email n params h1 h2 h3 h4 h5 h6]
  refine ⟨hscan st, ?_⟩
  unfold process_message
  simp only [create_or_get_conversation, hintent, hllm, hscan]

/-- C1 witness: the concrete fenced `mystery_tool` block aborts the
scan with `UnknownTool` and the turn answers the apology. -/
theorem claim_C1_unknown_tool_aborts_scan_witness :
    process_ai_response_for_tools stEmpty ("u1") ("e1")
        (toL ("Ok\n") ++ (fenceMarker ++ (toL ("json") ++ ([nlChar] ++
          (toL ("\x7b\"tool\": \"mystery_tool\", \"params\": \x7b\x7d\x7d") ++
            (fenceMarker ++ [])))))) =
      (Except.error (.unknownTool (.str ("mystery_tool"))), stEmpty, []) ∧
    (process_message stEmpty ("u1") ("e1") (toL ("hello there")) none
        (fun _ => toL ("Ok\n") ++ (fenceMarker ++ (toL ("json") ++ ([nlChar] ++
          (toL ("\x7b\"tool\": \"mystery_tool\", \"params\": \x7b\x7d\x7d") ++
            (fenceMarker ++ []))))))).1 =
      apologyDict (toString stEmpty.nextConvoId) stEmpty.now :=
  claim_C1_unknown_tool_aborts_scan stEmpty ("u1") ("e1") (toL ("Ok\n")) (toL ("json"))
    (toL ("\x7b\"tool\": \"mystery_tool\", \"params\": \x7b\x7d\x7d")) [] (toL ("hello there"))
    (.cons ("tool") (.str ("mystery_tool")) (.cons ("params") (.obj .nil) .nil))
    ("mystery_tool") (.obj .nil) (fun _ => toL ("Ok\n") ++ (fenceMarker ++ (toL ("json") ++
      ([nlChar] ++ (toL ("\x7b\"tool\": \"mystery_tool\", \"params\": \x7b\x7d\x7d") ++
        (fenceMarker ++ []))))))
    (by decide) (by decide) (by decide) (by decide) (by rfl) (by rfl) (by rfl)
    (by decide) (by decide) (by decide) (by decide) (by decide) (by decide)
    (by rfl) (by rfl)

/-- C3 (amended): an accepted fenced call has its span removed and gets
*at most* one confirmation sentence, chosen by tool name: `add_task`
(when params carries a title) echoes the title, `delete_task` /
`complete_task` use static text, `list_tasks` inlines the structured
result, while `update_task`, `get_current_user` and `add_task` without
a title get no confirmation at all; and when the final text is empty or
whitespace the fixed generic completion sentence is substituted. -/
theorem claim_C3_confirmation_table
    (st st2 : AgentState) (user_id email : String)
    (pre lang body post : List Char) (fields : JsonFields) (tool params result : Json)
    (hpre : ∀ c ∈ pre, c ≠ btick)
    (hlang : ∀ c ∈ lang, c ≠ btick ∧ c ≠ nlChar)
    (hbody : ∀ c ∈ body, c ≠ btick)
    (hpost : ∀ c ∈ post, c ≠ btick)
    (hjson : jsonLoads (pyStrip body) = some (Json.obj fields))
    (htool : fields.lookup ("tool") = some tool)
    (hparams : fields.lookup ("params") = some params)
    (hexec : execute_tool_from_params st user_id email tool params = .ok (st2, result))
    (hconf : ∀ c ∈ confirmation tool params result, c ≠ btick)
    (hfind : finditerPositions
      (pyStrip (pre ++ post) ++ confirmation tool params result) = []) :
    process_ai_response_for_tools st user_id email
        (pre ++ (fenceMarker ++ (lang ++ ([nlChar] ++ (body ++ (fenceMarker ++ post)))))) =
      (.ok (if pyStrip (pyStrip (pre ++ post) ++ confirmation tool params result) = []
          then actionDone
          else pyStrip (pre ++ post) ++ confirmation tool params result), st2,
        [(tool, params)]) ∧
    (paramsHasTitle params = true →
      confirmation (.str ("add_task")) params result =
        toL ("\n\nI\x27ve added \x27") ++ toL (pyStrJ (paramsTitle params)) ++
          toL ("\x27 to your tasks.")) ∧
    confirmation (.str ("delete_task")) params result =
      toL ("\n\nI\x27ve deleted the task as requested.") ∧
    confirmation (.str ("complete_task")) params result =
      toL ("\n\nI\x27ve marked the task as completed.") ∧
    confirmation (.str ("list_tasks")) params result =
      toL ("\n\nHere are your tasks: ") ++ toL (pyStrJ result) ∧
    confirmation (.str ("update_task")) params result = [] ∧
    confirmation (.str ("get_current_user")) params result = [] ∧
    (paramsHasTitle params = false →
      confirmation (.str ("add_task")) params result = []) := by
  constructor
  · unfold process_ai_response_for_tools
    rw [passAFuel_succ]
    rw [passA_fenced_step user_id email st _ pre lang body post fields tool params []
      hpre hlang hbody hpost hjson htool hparams]
    have hb : ∀ c ∈ pyStrip (pre ++ post) ++ confirmation tool params result, c ≠ btick := by
      intro c hc
      rcases List.mem_append.mp hc with hc1 | hc2
      · rcases List.mem_append.mp (mem_of_mem_pyStrip hc1) with hc3 | hc4
        · exact hpre c hc3
        · exact hpost c hc4
      · exact hconf c hc2
    have hA := passALoop_no_accept user_id email
      (pyStrip (pre ++ post) ++ confirmation tool params result)
      (fun pos _ => passAUnaccepted_of_btick_free _ hb pos)
    simp only [hexec, hA, hfind]
    simp
    rfl
  refine ⟨?_, rfl, rfl, rfl, rfl, rfl, ?_⟩
  · intro hT
    simp [confirmation, isStrEq, hT]
  · intro hT
    simp [confirmation, isStrEq, hT]

/-- C3 witness: a fenced `delete_task` call on `Done.` yields the text
plus exactly the static delete confirmation, with one dispatch. -/
theorem claim_C3_confirmation_table_witness :
    process_ai_response_for_tools stEmpty ("u1") ("e1")
        (toL ("Done.") ++ (fenceMarker ++ (toL ("json") ++ ([nlChar] ++
          (toL ("\x7b\"tool\": \"delete_task\", \"params\": \x7b\"task_id\": \"7\"\x7d\x7d") ++
            (fenceMarker ++ [])))))) =
      (Except.ok (if pyStrip (pyStrip (toL ("Done.") ++ []) ++
            confirmation (.str ("delete_task"))
              (.obj (.cons ("task_id") (.str ("7")) .nil)) (.bool false)) = []
          then actionDone
          else pyStrip (toL ("Done.") ++ []) ++
            confirmation (.str ("delete_task"))
              (.obj (.cons ("task_id") (.str ("7")) .nil)) (.bool false)), stEmpty,
        [(Json.str ("delete_task"), Json.obj (.cons ("task_id") (.str ("7")) .nil))]) :=
  (claim_C3_confirmation_table stEmpty stEmpty ("u1") ("e1") (toL ("Done.")) (toL ("json"))
    (toL ("\x7b\"tool\": \"delete_task\", \"params\": \x7b\"task_id\": \"7\"\x7d\x7d")) []
    (.cons ("tool") (.str ("delete_task"))
      (.cons ("params") (.obj (.cons ("task_id") (.str ("7")) .nil)) .nil))
    (.str ("delete_task")) (.obj (.cons ("task_id") (.str ("7")) .nil)) (.bool false)
    (by decide) (by decide) (by decide) (by decide) (by rfl) (by rfl) (by rfl)
    (by rfl) (by decide) (by rfl)).1

/-! ## Helper lemmas: extraction bounds and locality (for Pass B) -/

theorem extractLoop_bounds :
    ∀ (cs : List Char) (i : Nat) (count : Int) (sbp : Option Nat) (b e : Nat),
      extractLoop cs i count sbp = some (b, e) →
      i < e ∧ e ≤ i + cs.length ∧ (sbp = some b ∨ (i ≤ b ∧ b < e)) := by
  intro cs
  induction cs with
  | nil =>
    intro i count sbp b e h
    simp [extractLoop] at h
  | cons c rest ih =>
    intro i count sbp b e h
    by_cases hco : c = openBrace
    · simp only [extractLoop, if_pos hco] at h
      rcases ih (i + 1) (count + 1) _ b e h with ⟨h1, h2, h3⟩
      refine ⟨by omega, by simp; omega, ?_⟩
      by_cases hc0 : count = 0
      · rw [if_pos hc0] at h3
        rcases h3 with h3 | h3
        · right
          have hb : i = b := by injection h3
          omega
        · right
          omega
      · rw [if_neg hc0] at h3
        rcases h3 with h3 | h3
        · left
          exact h3
        · right
          omega
    · by_cases hcc : c = closeBrace
      · by_cases h1 : count - 1 = 0
        · cases sbp with
          | some b0 =>
            simp only [extractLoop, if_neg hco, if_pos hcc, if_pos h1] at h
            have hb : b0 = b ∧ i + 1 = e := by
              constructor <;> injection h <;> simp_all
            refine ⟨by omega, by simp; omega, Or.inl (by rw [hb.1])⟩
          | none =>
            simp only [extractLoop, if_neg hco, if_pos hcc, if_pos h1] at h
            rcases ih (i + 1) (count - 1) none b e h with ⟨h1', h2', h3'⟩
            refine ⟨by omega, by simp; omega, ?_⟩
            rcases h3' with h3' | h3'
            · simp at h3'
            · right
              omega
        · simp only [extractLoop, if_neg hco, if_pos hcc, if_neg h1] at h
          rcases ih (i + 1) (count - 1) sbp b e h with ⟨h1', h2', h3'⟩
          refine ⟨by omega, by simp; omega, ?_⟩
          rcases h3' with h3' | h3'
          · left
            exact h3'
          · right
            omega
      · simp only [extractLoop, if_neg hco, if_neg hcc] at h
        rcases ih (i + 1) count sbp b e h with ⟨h1', h2', h3'⟩
        refine ⟨by omega, by simp; omega, ?_⟩
        rcases h3' with h3' | h3'
        · left
          exact h3'
        · right
          omega

/-- The extraction loop only reads the characters up to the returned
end position: appending anything after them changes nothing. -/
theorem extractLoop_take :
    ∀ (cs : List Char) (i : Nat) (count : Int) (sbp : Option Nat) (b e : Nat),
      extractLoop cs i count sbp = some (b, e) →
      ∀ ds : List Char, extractLoop (cs.take (e - i) ++ ds) i count sbp = some (b, e) := by
  intro cs
  induction cs with
  | nil =>
    intro i count sbp b e h
    simp [extractLoop] at h
  | cons c rest ih =>
    intro i count sbp b e h ds
    have hei : i < e := (extractLoop_bounds (c :: rest) i count sbp b e h).1
    have htake : (c :: rest).take (e - i) = c :: rest.take (e - (i + 1)) := by
      have harith : e - i = (e - (i + 1)) + 1 := by omega
      rw [harith, List.take_succ_cons]
    rw [htake]
    by_cases hco : c = openBrace
    · simp only [extractLoop, if_pos hco] at h ⊢
      exact ih (i + 1) (count + 1) _ b e h ds
    · by_cases hcc : c = closeBrace
      · by_cases h1 : count - 1 = 0
        · cases sbp with
          | some b0 =>
            simp only [extractLoop, if_neg hco, if_pos hcc, if_pos h1] at h ⊢
            exact h
          | none =>
            simp only [extractLoop, if_neg hco, if_pos hcc, if_pos h1] at h ⊢
            exact ih (i + 1) (count - 1) none b e h ds
        · simp only [extractLoop, if_neg hco, if_pos hcc, if_neg h1] at h ⊢
          exact ih (i + 1) (count - 1) sbp b e h ds
      · simp only [extractLoop, if_neg hco, if_neg hcc] at h ⊢
        exact ih (i + 1) count sbp b e h ds

theorem extract_json_object_bounds (text : List Char) (p e : Nat) (s : List Char)
    (h : extract_json_object text p = some (s, e)) :
    p < e ∧ e ≤ text.length := by
  unfold extract_json_object at h
  cases hel : extractLoop (text.drop p) p 0 none with
  | none =>
    rw [hel] at h
    simp at h
  | some be =>
    rcases be with ⟨b, e0⟩
    rw [hel] at h
    simp only [Option.some.injEq, Prod.mk.injEq] at h
    rcases h with ⟨_, he⟩
    subst he
    rcases extractLoop_bounds (text.drop p) p 0 none b e0 hel with ⟨h1, h2, _⟩
    rw [List.length_drop] at h2
    omega

/-- Locality of `_extract_json_object`: its result depends only on the
characters between the offset and the returned end position. -/
theorem extract_json_object_local (t t' : List Char) (p e : Nat) (s : List Char)
    (h : extract_json_object t p = some (s, e))
    (hagree : (t'.drop p).take (e - p) = (t.drop p).take (e - p)) :
    extract_json_object t' p = some (s, e) := by
  unfold extract_json_object at h ⊢
  cases hel : extractLoop (t.drop p) p 0 none with
  | none =>
    rw [hel] at h
    simp at h
  | some be =>
    rcases be with ⟨b, e0⟩
    rw [hel] at h
    simp only [Option.some.injEq, Prod.mk.injEq] at h
    rcases h with ⟨hs, he⟩
    subst he
    rcases extractLoop_bounds (t.drop p) p 0 none b e0 hel with ⟨hie, hlen, hdisj⟩
    have hbr : p ≤ b ∧ b < e0 := by
      rcases hdisj with hd | hd
      · simp at hd
      · exact hd
    have htk := extractLoop_take (t.drop p) p 0 none b e0 hel ((t'.drop p).drop (e0 - p))
    rw [← hagree, List.take_append_drop] at htk
    rw [htk]
    have hslice : pySlice t' b e0 = pySlice t b e0 := by
      unfold pySlice
      have h1 : t'.drop b = (t'.drop p).drop (b - p) := by
        rw [List.drop_drop]
        congr 1
        omega
      have h2 : t.drop b = (t.drop p).drop (b - p) := by
        rw [List.drop_drop]
        congr 1
        omega
      rw [h1, h2]
      have key : ((t'.drop p).take (e0 - p)).drop (b - p) =
          ((t.drop p).take (e0 - p)).drop (b - p) := by
        rw [hagree]
      rw [List.drop_take, List.drop_take] at key
      have harith : e0 - p - (b - p) = e0 - b := by omega
      rw [harith] at key
      exact key
    show some (pySlice t' b e0, e0) = some (s, e0)
    rw [hslice, hs]

/-! ## Helper lemmas: strip decomposition -/

theorem pyStripEnd_decomp (l : List Char) :
    l = pyStripEnd l ++ (l.reverse.takeWhile isPyWs).reverse := by
  unfold pyStripEnd
  rw [← List.reverse_append, List.takeWhile_append_dropWhile, List.reverse_reverse]

theorem pyStrip_of_head (c : Char) (l : List Char) (hc : isPyWs c = false) :
    pyStrip (c :: l) = pyStripEnd (c :: l) := by
  unfold pyStrip
  rw [List.dropWhile_cons]
  simp [hc]

theorem prefix_drop_take (Z S W : List Char) (hpre : Z = S ++ W) (p e : Nat)
    (he : e ≤ S.length) (hp : p ≤ e) :
    (S.drop p).take (e - p) = (Z.drop p).take (e - p) := by
  subst hpre
  rw [List.drop_append_eq_append_drop, List.take_append_eq_append_take]
  have h0 : e - p - (S.drop p).length = 0 := by
    rw [List.length_drop]
    omega
  rw [h0]
  simp

/-- After Pass B processes the later span `[p2, e2)` (splice then strip
then append), the characters in `[p1, e1)` are unchanged, provided the
text starts with a non-whitespace character (so the strip removes
nothing at the front), the earlier span ends before `p2`, and the
trailing strip does not truncate into it. -/
theorem splice_agree (text : List Char) (p1 e1 p2 e2 : Nat) (conf : List Char)
    (c0 : Char) (t0 : List Char) (htext : text = c0 :: t0) (hws : isPyWs c0 = false)
    (hp2 : 0 < p2) (hp2len : p2 ≤ text.length) (hp1e1 : p1 ≤ e1) (horder : e1 ≤ p2)
    (htrunc : e1 ≤ (pyStrip (text.take p2 ++ text.drop e2)).length) :
    ((pyStrip (text.take p2 ++ text.drop e2) ++ conf).drop p1).take (e1 - p1) =
      (text.drop p1).take (e1 - p1) := by
  set Z := text.take p2 ++ text.drop e2 with hZdef
  obtain ⟨zt, hZ⟩ : ∃ zt, Z = c0 :: zt := by
    rw [hZdef, htext]
    cases p2 with
    | zero => omega
    | succ p2' => exact ⟨_, by rw [List.take_succ_cons, List.cons_append]⟩
  have hstrip : pyStrip Z = pyStripEnd Z := by
    rw [hZ]
    exact pyStrip_of_head c0 zt hws
  have hpre : Z = pyStrip Z ++ (Z.reverse.takeWhile isPyWs).reverse := by
    rw [hstrip]
    exact pyStripEnd_decomp Z
  have ha : ((pyStrip Z ++ conf).drop p1).take (e1 - p1) =
      ((pyStrip Z).drop p1).take (e1 - p1) := by
    rw [List.drop_append_eq_append_drop, List.take_append_eq_append_take]
    have h0 : e1 - p1 - ((pyStrip Z).drop p1).length = 0 := by
      rw [List.length_drop]
      omega
    rw [h0]
    simp
  have hb : ((pyStrip Z).drop p1).take (e1 - p1) = (Z.drop p1).take (e1 - p1) :=
    prefix_drop_take Z (pyStrip Z) _ hpre p1 e1 htrunc hp1e1
  have hc : (Z.drop p1).take (e1 - p1) = (text.drop p1).take (e1 - p1) := by
    rw [hZdef, List.drop_append_eq_append_drop, List.take_append_eq_append_take]
    have hlen2 : ((text.take p2).drop p1).length = p2 - p1 := by
      rw [List.length_drop, List.length_take]
      omega
    have h0 : e1 - p1 - ((text.take p2).drop p1).length = 0 := by
      rw [hlen2]
      omega
    rw [h0]
    simp only [List.take_zero, List.append_nil]
    rw [List.drop_take, List.take_take]
    congr 1
    omega
  rw [ha, hb, hc]

/-- C7 (amended): on a text whose only two pattern matches are two
well-formed inline calls, with no backticks, a non-whitespace leading
character (so the per-acceptance strip cannot shift the pending smaller
offset) and a trailing strip that does not truncate into the earlier
span, Pass B applies the extractions in descending start-offset order:
the later call executes first, both spans are spliced out (each splice
`text[:start] + text[end:]` followed by a strip and the per-tool
confirmation), and the recorded dispatch order is the reverse of the
textual order. -/
theorem claim_C7_two_inline_calls
    (st st2 st3 : AgentState) (user_id email : String) (text : List Char)
    (p1 p2 e1 e2 : Nat) (s1 s2 : List Char) (f1 f2 : JsonFields)
    (tool1 params1 r1 tool2 params2 r2 : Json) (c0 : Char) (t0 : List Char)
    (hticks : ∀ c ∈ text, c ≠ btick)
    (hpos : finditerPositions text = [p1, p2])
    (hx2 : extract_json_object text p2 = some (s2, e2))
    (hj2 : jsonLoads s2 = some (Json.obj f2))
    (ht2 : f2.lookup ("tool") = some tool2)
    (hq2 : f2.lookup ("params") = some params2)
    (hex2 : execute_tool_from_params st user_id email tool2 params2 = .ok (st2, r2))
    (hx1 : extract_json_object text p1 = some (s1, e1))
    (hj1 : jsonLoads s1 = some (Json.obj f1))
    (ht1 : f1.lookup ("tool") = some tool1)
    (hq1 : f1.lookup ("params") = some params1)
    (hex1 : execute_tool_from_params st2 user_id email tool1 params1 = .ok (st3, r1))
    (hp12 : p1 < p2)
    (horder : e1 ≤ p2)
    (htext : text = c0 :: t0) (hws : isPyWs c0 = false)
    (htrunc : e1 ≤ (pyStrip (text.take p2 ++ text.drop e2)).length) :
    process_ai_response_for_tools st user_id email text =
      (.ok
        (if pyStrip (pyStrip ((pyStrip (text.take p2 ++ text.drop e2) ++
              confirmation tool2 params2 r2).take p1 ++
            (pyStrip (text.take p2 ++ text.drop e2) ++
              confirmation tool2 params2 r2).drop e1) ++
            confirmation tool1 params1 r1) = []
        then actionDone
        else pyStrip ((pyStrip (text.take p2 ++ text.drop e2) ++
              confirmation tool2 params2 r2).take p1 ++
            (pyStrip (text.take p2 ++ text.drop e2) ++
              confirmation tool2 params2 r2).drop e1) ++
          confirmation tool1 params1 r1), st3,
        [(tool2, params2), (tool1, params1)]) := by
  have hb2 := extract_json_object_bounds text p2 e2 s2 hx2
  have hb1 := extract_json_object_bounds text p1 e1 s1 hx1
  have hagree := splice_agree text p1 e1 p2 e2 (confirmation tool2 params2 r2) c0 t0
    htext hws (by omega) (by omega) (by omega) horder htrunc
  have hx1' : extract_json_object
      (pyStrip (text.take p2 ++ text.drop e2) ++ confirmation tool2 params2 r2) p1 =
      some (s1, e1) :=
    extract_json_object_local text _ p1 e1 s1 hx1 hagree
  have hk2t : f2.hasKey ("tool") = true := by
    unfold JsonFields.hasKey
    rw [ht2]
    rfl
  have hk2p : f2.hasKey ("params") = true := by
    unfold JsonFields.hasKey
    rw [hq2]
    rfl
  have hg2t : f2.getD ("tool") Json.null = tool2 := by
    unfold JsonFields.getD
    rw [ht2]
  have hg2p : f2.getD ("params") Json.null = params2 := by
    unfold JsonFields.getD
    rw [hq2]
  have hk1t : f1.hasKey ("tool") = true := by
    unfold JsonFields.hasKey
    rw [ht1]
    rfl
  have hk1p : f1.hasKey ("params") = true := by
    unfold JsonFields.hasKey
    rw [hq1]
    rfl
  have hg1t : f1.getD ("tool") Json.null = tool1 := by
    unfold JsonFields.getD
    rw [ht1]
  have hg1p : f1.getD ("params") Json.null = params1 := by
    unfold JsonFields.getD
    rw [hq1]
  have hA := passALoop_no_accept user_id email text
    (fun pos _ => passAUnaccepted_of_btick_free text hticks pos)
  have hrev : ([p1, p2]).reverse = [p2, p1] := rfl
  have hstep2 : passBFold user_id email [p2, p1] st text [] =
      passBFold user_id email [p1] st2
        (pyStrip (text.take p2 ++ text.drop e2) ++ confirmation tool2 params2 r2)
        [(tool2, params2)] := by
    conv_lhs => unfold passBFold
    simp only [hx2, hj2, hk2t, hk2p, Bool.and_self, if_true, hg2t, hg2p, hex2,
      List.nil_append]
  have hstep1 : passBFold user_id email [p1] st2
      (pyStrip (text.take p2 ++ text.drop e2) ++ confirmation tool2 params2 r2)
      [(tool2, params2)] =
      (.ok (pyStrip ((pyStrip (text.take p2 ++ text.drop e2) ++
            confirmation tool2 params2 r2).take p1 ++
          (pyStrip (text.take p2 ++ text.drop e2) ++
            confirmation tool2 params2 r2).drop e1) ++
          confirmation tool1 params1 r1), st3,
        [(tool2, params2), (tool1, params1)]) := by
    conv_lhs => unfold passBFold
    simp only [hx1', hj1, hk1t, hk1p, Bool.and_self, if_true, hg1t, hg1p, hex1]
    rfl
  unfold process_ai_response_for_tools
  simp only [hA, hpos, hrev, hstep2, hstep1]

/-- C7 witness: two inline calls with no leading whitespace — the later
(`complete_task`) executes first, then the earlier (`delete_task`),
both spans are removed, and both confirmations are appended. -/
theorem claim_C7_two_inline_calls_witness :
    process_ai_response_for_tools stEmpty ("u1") ("e1")
        (inlineDelete7 ++ toL (" and ") ++ inlineComplete9) =
      (Except.ok (toL ("and\n\nI\x27ve marked the task as completed.\n\nI\x27ve deleted the task as requested.")),
        stEmpty,
        [(Json.str ("complete_task"), Json.obj (.cons ("task_id") (.str ("9")) .nil)),
          (Json.str ("delete_task"), Json.obj (.cons ("task_id") (.str ("7")) .nil))]) := by
  have h := claim_C7_two_inline_calls stEmpty stEmpty stEmpty ("u1") ("e1")
    (inlineDelete7 ++ toL (" and ") ++ inlineComplete9)
    0 56 51 109 inlineDelete7 inlineComplete9
    (.cons ("tool") (.str ("delete_task"))
      (.cons ("params") (.obj (.cons ("task_id") (.str ("7")) .nil)) .nil))
    (.cons ("tool") (.str ("complete_task"))
      (.cons ("params") (.obj (.cons ("task_id") (.str ("9")) .nil)) .nil))
    (.str ("delete_task")) (.obj (.cons ("task_id") (.str ("7")) .nil)) (.bool false)
    (.str ("complete_task")) (.obj (.cons ("task_id") (.str ("9")) .nil)) Json.null
    openBrace ((inlineDelete7 ++ toL (" and ") ++ inlineComplete9).tail)
    (by decide) (by rfl) (by rfl) (by rfl) (by rfl) (by rfl) (by rfl)
    (by rfl) (by rfl) (by rfl) (by rfl) (by rfl)
    (by decide) (by decide) (by rfl) (by rfl) (by decide)
  rw [h]
  rfl

/-- C5: dispatching `get_current_user` with the same authenticated
`(user_id, email)` pair yields the identical result for any two params
values (even ones carrying `user_id`/`email` fields), and that result is
exactly the `{"email": email, "user_id": user_id}` dict built from the
session context — scanned params never influence the returned identity. -/
theorem claim_C5_identity_ignores_params (st : AgentState) (user_id email : String)
    (p1 p2 : Json) :
    execute_tool_from_params st user_id email (.str ("get_current_user")) p1 =
      Except.ok (st, get_current_user user_id email) ∧
    execute_tool_from_params st user_id email (.str ("get_current_user")) p1 =
      execute_tool_from_params st user_id email (.str ("get_current_user")) p2 ∧
    get_current_user user_id email =
      Json.obj (.cons ("email") (.str email) (.cons ("user_id") (.str user_id) .nil)) :=
  ⟨rfl, rfl, rfl⟩

/-- C2: whenever `process_message` completes (success, intent path, or
its own exception handler), the returned dict has keys
`conversation_id`, `message`, `tool_result`, `timestamp` only, so the
endpoint's read of `result["task_operations"]` raises `KeyError` and the
endpoint answers 500. -/
theorem claim_C2_endpoint_always_500 (st : AgentState) (user_id email : String)
    (message : List Char) (cid : Option String) (llm : List Char → List Char) :
    chat_endpoint_build (process_message st user_id email message cid llm).1 =
      EndpointOut.httpError 500 := by
  unfold process_message
  rcases create_or_get_conversation st cid user_id with ⟨conv, st1⟩
  cases detect_intent message with
  | some intent =>
    simp only []
    rcases execute_tool (save_message st1 conv user_id ("user") (String.mk message))
        user_id email intent (extract_task_info message intent) with ⟨st3, tr⟩
    rfl
  | none =>
    simp only []
    rcases hr : process_ai_response_for_tools
        (save_message st1 conv user_id ("user") (String.mk message)) user_id email
        (llm message) with ⟨res, st3, log⟩
    cases res <;> rfl

/-- C4: for a task that exists but belongs to a different user,
`complete_task` and `update_task` return the not-found value (`none`),
`delete_task` returns `false`, and the state (in particular the other
user's row) is left entirely unchanged; and the results are the very
same ones produced when no task with that id exists at all, so nothing
distinguishes "exists but not yours" from "does not exist". -/
theorem claim_C4_user_isolation (st : AgentState) (user_id task_id : String)
    (other : Task) (hmem : other ∈ st.tasks) (hid : other.id = task_id)
    (howner : other.user_id ≠ user_id)
    (huniq : ∀ t ∈ st.tasks, t.id = task_id → t.user_id ≠ user_id) :
    TaskTools.complete_task st user_id task_id = (st, none) ∧
    (∀ a b c d, TaskTools.update_task st user_id task_id a b c d = (st, none)) ∧
    TaskTools.delete_task st user_id task_id = (st, false) ∧
    (∀ st2 : AgentState, (∀ t ∈ st2.tasks, t.id ≠ task_id) →
      TaskTools.complete_task st2 user_id task_id = (st2, none) ∧
      (∀ a b c d, TaskTools.update_task st2 user_id task_id a b c d = (st2, none)) ∧
      TaskTools.delete_task st2 user_id task_id = (st2, false)) := by
  have key : ∀ t ∈ st.tasks, ¬((t.id == task_id && t.user_id == user_id) = true) := by
    intro t ht h
    rw [Bool.and_eq_true, beq_iff_eq, beq_iff_eq] at h
    exact huniq t ht h.1 h.2
  have general : ∀ st0 : AgentState,
      (∀ t ∈ st0.tasks, ¬((t.id == task_id && t.user_id == user_id) = true)) →
      TaskTools.complete_task st0 user_id task_id = (st0, none) ∧
      (∀ a b c d, TaskTools.update_task st0 user_id task_id a b c d = (st0, none)) ∧
      TaskTools.delete_task st0 user_id task_id = (st0, false) := by
    intro st0 k
    have hfind : TaskTools.findTask st0.tasks user_id task_id = none :=
      List.find?_eq_none.mpr k
    refine ⟨?_, ?_, ?_⟩
    · unfold TaskTools.complete_task
      rw [hfind]
    · intro a b c d
      unfold TaskTools.update_task
      rw [hfind]
    · unfold TaskTools.delete_task
      have h1 : st0.tasks.filter (fun t => !(t.id == task_id && t.user_id == user_id)) = st0.tasks := by
        apply List.filter_eq_self.mpr
        intro a ha
        have h := k a ha
        revert h
        cases hx : (a.id == task_id && a.user_id == user_id) <;> simp
      have h2 : st0.tasks.any (fun t => t.id == task_id && t.user_id == user_id) = false := by
        rw [Bool.eq_false_iff]
        intro hany
        rcases List.any_eq_true.mp hany with ⟨t, ht, hp⟩
        exact k t ht hp
      simp only [h1, h2]
  rcases general st key with ⟨g1, g2, g3⟩
  refine ⟨g1, g2, g3, ?_⟩
  intro st2 hnone
  apply general
  intro t ht h
  rw [Bool.and_eq_true, beq_iff_eq, beq_iff_eq] at h
  exact hnone t ht h.1

/-- C4 witness: a task owned by `alice`; caller `bob` gets the
not-found results and the state is untouched. -/
theorem claim_C4_user_isolation_witness :
    TaskTools.complete_task stAlice ("bob") ("1") = (stAlice, none) ∧
    TaskTools.delete_task stAlice ("bob") ("1") = (stAlice, false) := by
  have h := claim_C4_user_isolation stAlice ("bob") ("1") aliceTask
    (by decide) (by decide) (by decide) (by decide)
  exact ⟨h.1, h.2.2.1⟩

/-- C9: the intent classifier is a pure total function of the raw
message: it depends only on the lower-cased text (case-insensitive
matching), always produces one of the five intents or `none`, and when
several keyword sets match it follows the fixed priority
add > delete > complete > list > identity. -/
theorem claim_C9_classifier_priority (message : List Char) :
    (∀ m2 : List Char, pyLower m2 = pyLower message →
      detect_intent m2 = detect_intent message) ∧
    (detect_intent message = some ("add_task") ∨
      detect_intent message = some ("delete_task") ∨
      detect_intent message = some ("complete_task") ∨
      detect_intent message = some ("list_tasks") ∨
      detect_intent message = some ("get_current_user") ∨
      detect_intent message = none) ∧
    ((containsStr (pyLower message) (toL ("add")) ||
        containsStr (pyLower message) (toL ("create")) ||
        containsStr (pyLower message) (toL ("new task"))) = true →
      detect_intent message = some ("add_task")) ∧
    ((containsStr (pyLower message) (toL ("add")) ||
        containsStr (pyLower message) (toL ("create")) ||
        containsStr (pyLower message) (toL ("new task"))) = false →
      (containsStr (pyLower message) (toL ("delete")) ||
        containsStr (pyLower message) (toL ("remove"))) = true →
      detect_intent message = some ("delete_task")) ∧
    ((containsStr (pyLower message) (toL ("add")) ||
        containsStr (pyLower message) (toL ("create")) ||
        containsStr (pyLower message) (toL ("new task"))) = false →
      (containsStr (pyLower message) (toL ("delete")) ||
        containsStr (pyLower message) (toL ("remove"))) = false →
      (containsStr (pyLower message) (toL ("complete")) ||
        containsStr (pyLower message) (toL ("done")) ||
        containsStr (pyLower message) (toL ("finish"))) = true →
      detect_intent message = some ("complete_task")) ∧
    ((containsStr (pyLower message) (toL ("add")) ||
        containsStr (pyLower message) (toL ("create")) ||
        containsStr (pyLower message) (toL ("new task"))) = false →
      (containsStr (pyLower message) (toL ("delete")) ||
        containsStr (pyLower message) (toL ("remove"))) = false →
      (containsStr (pyLower message) (toL ("complete")) ||
        containsStr (pyLower message) (toL ("done")) ||
        containsStr (pyLower message) (toL ("finish"))) = false →
      (containsStr (pyLower message) (toL ("list")) ||
        containsStr (pyLower message) (toL ("show")) ||
        containsStr (pyLower message) (toL ("tasks"))) = true →
      detect_intent message = some ("list_tasks")) ∧
    ((containsStr (pyLower message) (toL ("add")) ||
        containsStr (pyLower message) (toL ("create")) ||
        containsStr (pyLower message) (toL ("new task"))) = false →
      (containsStr (pyLower message) (toL ("delete")) ||
        containsStr (pyLower message) (toL ("remove"))) = false →
      (containsStr (pyLower message) (toL ("complete")) ||
        containsStr (pyLower message) (toL ("done")) ||
        containsStr (pyLower message) (toL ("finish"))) = false →
      (containsStr (pyLower message) (toL ("list")) ||
        containsStr (pyLower message) (toL ("show")) ||
        containsStr (pyLower message) (toL ("tasks"))) = false →
      (containsStr (pyLower message) (toL ("who am i")) ||
        containsStr (pyLower message) (toL ("my email"))) = true →
      detect_intent message = some ("get_current_user")) ∧
    ((containsStr (pyLower message) (toL ("add")) ||
        containsStr (pyLower message) (toL ("create")) ||
        containsStr (pyLower message) (toL ("new task"))) = false →
      (containsStr (pyLower message) (toL ("delete")) ||
        containsStr (pyLower message) (toL ("remove"))) = false →
      (containsStr (pyLower message) (toL ("complete")) ||
        containsStr (pyLower message) (toL ("done")) ||
        containsStr (pyLower message) (toL ("finish"))) = false →
      (containsStr (pyLower message) (toL ("list")) ||
        containsStr (pyLower message) (toL ("show")) ||
        containsStr (pyLower message) (toL ("tasks"))) = false →
      (containsStr (pyLower message) (toL ("who am i")) ||
        containsStr (pyLower message) (toL ("my email"))) = false →
      detect_intent message = none) := by
  refine ⟨?_, ?_, ?_, ?_, ?_, ?_, ?_, ?_⟩
  · intro m2 h
    simp only [detect_intent, h]
  · simp only [detect_intent]
    repeat' split
    all_goals tauto
  all_goals
    intros
    simp_all only [detect_intent]
    rfl

/-- C9 witness: a message matching both the delete and complete keyword
sets is classified `delete_task` by priority. -/
theorem claim_C9_classifier_priority_witness :
    detect_intent (toL ("please delete the completed one")) = some ("delete_task") := by
  exact (claim_C9_classifier_priority (toL ("please delete the completed one"))).2.2.2.1
    (by decide) (by decide)

/-- C1 counterexample: for a fenced block naming the unregistered tool
`mystery_tool`, the scanner does *not* remove the span and return the
rewritten remainder — the dispatch `ValueError` propagates out of the
scan (nothing was removed, no dispatch was recorded), and the turn
collapses to the fixed apology dict. -/
theorem claim_C1_counterexample :
    process_ai_response_for_tools stEmpty ("u1") ("e1") fencedUnknownText =
      (Except.error (.unknownTool (.str ("mystery_tool"))), stEmpty, []) ∧
    (process_message stEmpty ("u1") ("e1") (toL ("hello there")) none
        (fun _ => fencedUnknownText)).1 = apologyDict ("0") ("t0") := by
  exact ⟨rfl, rfl⟩

/-- C3 counterexample: a fenced `get_current_user` call is accepted and
dispatched (one entry in the log), its span is removed, but *no*
confirmation sentence is appended: the returned text is exactly the
surrounding `Hi`.  This refutes "for every accepted ToolCall ... appends
exactly one deterministic confirmation sentence". -/
theorem claim_C3_counterexample :
    process_ai_response_for_tools stEmpty ("u1") ("e1") fencedGcuText =
      (Except.ok (toL ("Hi")), stEmpty,
        [(Json.str ("get_current_user"), Json.obj .nil)]) := by
  exact rfl

/-- C6 counterexample: on text `\x7d\x7b\x7d` with offset 0, the first
opening brace at or after the offset starts the brace-balanced region
`\x7b\x7d`, yet `_extract_json_object` returns no extraction: the stray
closing brace before it drives `brace_count` negative, so the claim as
stated (quantified over any text and offset) is false. -/
theorem claim_C6_counterexample :
    (toL ("\x7d\x7b\x7d")).drop 1 = [openBrace, closeBrace] ∧
    braceDepth ((toL ("\x7d\x7b\x7d")).drop 1) = 0 ∧
    extract_json_object (toL ("\x7d\x7b\x7d")) 0 = none := by
  exact ⟨rfl, rfl, rfl⟩

/-- C7 counterexample: a text with two well-formed inline calls but a
leading newline.  After the later call is processed, the posterior
`strip` removes the leading newline and shifts the text by one, so the
not-yet-applied earlier offset lands inside the first call's JSON; the
re-extraction there yields only the inner `params` object, which fails
the acceptance test.  Result: only one dispatch happens and the final
text still contains the first call's literal JSON span. -/
theorem claim_C7_counterexample :
    (process_ai_response_for_tools stEmpty ("u1") ("e1")
        (toL ("\n") ++ inlineDelete7 ++ toL (" ") ++ inlineComplete9)).2.2 =
      [(Json.str ("complete_task"), Json.obj (.cons ("task_id") (.str ("9")) .nil))] ∧
    (match (process_ai_response_for_tools stEmpty ("u1") ("e1")
        (toL ("\n") ++ inlineDelete7 ++ toL (" ") ++ inlineComplete9)).1 with
      | .ok t => containsStr t inlineDelete7
      | .error _ => false) = true := by
  exact ⟨rfl, rfl⟩

/-- C8 counterexample: on the whitespace-only text `" "` there is no
embedded call and no dispatch occurs, but the returned text is the
fixed generic completion sentence — neither the input nor its trimmed
form — so "returns the text unchanged modulo trimming" fails. -/
theorem claim_C8_counterexample :
    process_ai_response_for_tools stEmpty ("u1") ("e1") (toL (" ")) =
      (Except.ok actionDone, stEmpty, []) ∧
    actionDone ≠ toL (" ") ∧ actionDone ≠ pyStrip (toL (" ")) := by
  refine ⟨rfl, by decide, by decide⟩

/-- C10 counterexample: in `to do task` the first separator present (in
priority order) is `task`, and the text after that split, trimmed and
de-quoted, is empty — the claim therefore demands the empty field — but
the code skips the empty remainder, goes on to the separator `to`, and
returns `do task`. -/
theorem claim_C10_counterexample :
    containsStr (toL ("to do task")) (toL ("task")) = true ∧
    containsStr (toL ("to do task")) [dquote] = false ∧
    containsStr (toL ("to do task")) [squote] = false ∧
    dequoteTitle (afterFirst (toL ("to do task")) (toL ("task"))) = [] ∧
    extract_task_info (toL ("to do task")) ("add_task") = toL ("do task") := by
  exact ⟨rfl, rfl, rfl, rfl, rfl⟩

end TodoAgent
